import Mathlib

/-!
# A shallow embedding of `SIPP.cpp` (MAPF-LNS)

This file embeds the single-agent SIPP planner of `src/src/SIPP.cpp` in Lean 4
and proves/refutes the frozen claims about it.

Modelling conventions:

* C++ pointers to `SIPPNode` become indices into an arena (`List SIPPNode`);
  the arena plays the role of `allNodes_table` (every allocated node that was
  inserted into the hash table lives in the arena; temporaries that the C++
  code `delete`s immediately are never added).
* The boost heaps `open_list` and `focal_list` become lists of arena indices;
  `top()` selects the minimal element under the comparison order (ties go to
  the earliest inserted element), `push` appends, and erasing/popping removes
  the index.  A handle `update` is a no-op because keys are read from the
  arena on demand.
* The collaborators that are not part of the repository sources
  (`ReservationTable`, `ConstraintTable`, `Instance`, `my_heuristic`) are
  function-valued parameters collected in `SIPPEnv`; their intended meaning is
  modelled from the spec (see the field docstrings).
* Machine integers become `Nat` (all quantities involved - timesteps, costs,
  heuristic values, conflict counts - are non-negative in the source);
  the `double w` suboptimality factor becomes an exact rational `ℚ`.
* The unbounded `while` loops run on explicit fuel; exhausting the fuel
  returns the empty path, mirroring the time-limit/failure modes of the
  planner, so all claims conditioned on a non-empty returned path are
  unaffected.
-/

set_option maxHeartbeats 1000000
set_option maxRecDepth 8000

namespace SIPP

/-- A path is the sequence of cell locations indexed by timestep
    (the `location` fields of the C++ `vector<PathEntry>`). -/
abbrev Path := List Nat

/-- A safe interval `[low, high)` together with its soft-collision count:
    the C++ `Interval` tuple, whose components are read with
    `get<0>`, `get<1>`, `get<2>`. -/
structure SInterval where
  low : Nat
  high : Nat
  nc : Nat
deriving DecidableEq, Repr

/-- Shallow embedding of `SIPPNode`.  The C++ parent pointer becomes an
    arena index (`parent : Option Nat`). -/
structure SIPPNode where
  location : Nat
  g_val : Nat
  h_val : Nat
  parent : Option Nat
  timestep : Nat
  interval : SInterval
  num_of_conflicts : Nat
  is_goal : Bool
  wait_at_goal : Bool
  in_openlist : Bool
deriving DecidableEq, Repr

/-- The node used for out-of-range arena reads (never reached under the
    index-validity invariants proved below). -/
def dfltNode : SIPPNode :=
  ⟨0, 0, 0, none, 0, ⟨0, 0, 0⟩, 0, false, false, false⟩

def SIPPNode.getFVal (n : SIPPNode) : Nat := n.g_val + n.h_val

/-- The hash-table identity of a node (`SIPPNode::NodeHasher` / `eqnode`):
    nodes are identified by `(location, interval_low, is_goal)`. -/
def SIPPNode.sameKey (a b : SIPPNode) : Bool :=
  a.location == b.location && a.interval.low == b.interval.low &&
    (a.is_goal == b.is_goal)

/-- Modelled from the spec: `LLNode::copy` (declared in the headers, which are
    not among the sources) replaces the stored search data of a node with the
    data of another node of the same hash key; the open-list membership flag
    of the updated node is managed separately by the callers. -/
def SIPPNode.copyFrom (old nd : SIPPNode) : SIPPNode :=
  { nd with in_openlist := old.in_openlist }

/-- Read the node stored at arena index `i`. -/
def nodeAt (arena : List SIPPNode) (i : Nat) : SIPPNode :=
  arena.getD i dfltNode

/-- `allNodes_table.find`: the arena index holding a node with the same
    hash key, if any. -/
def findKey (arena : List SIPPNode) (n : SIPPNode) : Option Nat :=
  (List.range arena.length).find? fun j => SIPPNode.sameKey (nodeAt arena j) n

/-- Modelled from the spec: the FOCAL heap order (the `secondary_compare_node`
    of the headers, which are not among the sources) compares by
    `num_of_conflicts` ascending, then `f = g + h` ascending, then `h`
    ascending. -/
def focalLt (a b : SIPPNode) : Bool :=
  a.num_of_conflicts < b.num_of_conflicts ||
    (a.num_of_conflicts == b.num_of_conflicts &&
      (a.getFVal < b.getFVal || (a.getFVal == b.getFVal && a.h_val < b.h_val)))

/-- Modelled from the spec: the OPEN heap order (`compare_node`) compares by
    `f = g + h` ascending, then `h` ascending. -/
def openLt (a b : SIPPNode) : Bool :=
  a.getFVal < b.getFVal || (a.getFVal == b.getFVal && a.h_val < b.h_val)

/-- `top()` of a heap holding the arena indices `l`: the minimal element
    under `lt`, ties resolved towards the earliest element. -/
def selectMin (lt : SIPPNode → SIPPNode → Bool) (arena : List SIPPNode) :
    List Nat → Option Nat
  | [] => none
  | i :: is =>
      some (is.foldl (fun b j => if lt (nodeAt arena j) (nodeAt arena b) then j else b) i)

/-- The environment of one `SIPP` search call: the agent data together with
    the collaborator objects that the repository sources only use through
    their interfaces. -/
structure SIPPEnv where
  start_location : Nat
  goal_location : Nat
  /-- `my_heuristic[c]`: precomputed distance-to-goal heuristic (external). -/
  my_heuristic : Nat → Nat
  /-- `instance.getNeighbors` (external). -/
  getNeighbors : Nat → List Nat
  /-- `constraint_table.length_max`. -/
  length_max : Nat
  /-- `constraint_table.getHoldingTime(goal_location, constraint_table.length_min)`,
      computed once per search in the source. -/
  holding_time : Nat
  /-- Modelled from the spec: `constraint_table.getFutureNumOfCollisions(c, t)`
      counts the other agents still occupying `c` at any time `≥ t`. -/
  getFutureNumOfCollisions : Nat → Nat → Nat
  /-- Modelled from the spec: `reservation_table.get_first_safe_interval(c)`. -/
  get_first_safe_interval : Nat → SInterval
  /-- Modelled from the spec: `reservation_table.get_safe_intervals(from, to, lo, hi)`
      lists, in increasing-time order, the safe transition intervals of the
      edge `from → to` whose earliest feasible arrival falls in `[lo, hi)`. -/
  get_safe_intervals : Nat → Nat → Nat → Nat → List SInterval
  /-- Modelled from the spec: `reservation_table.find_safe_interval(interval, c, t)`
      yields the next safe interval of cell `c` starting at `t`, if any
      (the result is written into the in-out `interval` argument, whose
      previous value does not influence the result). -/
  find_safe_interval : Nat → Nat → Option SInterval

/-- The mutable state of one mode-A (`findPath`) search. -/
structure StateA where
  arena : List SIPPNode
  focal : List Nat
  num_expanded : Nat
  num_generated : Nat
deriving Repr

/-- The replacement test of the duplicate handling (lines 87–89, 280–282 and
    342–344 of the source): the new node `nd` wins against the stored node
    `ex` iff it has a strictly smaller timestep, or an equal timestep and
    strictly fewer conflicts. -/
def replacesKey (nd ex : SIPPNode) : Prop :=
  ex.timestep > nd.timestep ∨
    (ex.timestep = nd.timestep ∧ ex.num_of_conflicts > nd.num_of_conflicts)

instance (nd ex : SIPPNode) : Decidable (replacesKey nd ex) := by
  unfold replacesKey
  infer_instance

/-- The child node built by `SIPP::generateChildToFocal` before duplicate
    detection (`new SIPPNode(next_location, next_timestep, next_h_val, curr,
    next_timestep, interval, curr->num_of_conflicts + (int)get<2>(interval))`,
    plus the `wait_at_goal` flag). -/
def mkChildA (env : SIPPEnv) (iv : SInterval) (c next_location next_h_val : Nat)
    (arena : List SIPPNode) : SIPPNode :=
  let curr := nodeAt arena c
  let next_timestep := max (curr.timestep + 1) iv.low
  { location := next_location
    g_val := next_timestep
    h_val := max next_h_val (curr.getFVal - next_timestep)
    parent := some c
    timestep := next_timestep
    interval := iv
    num_of_conflicts := curr.num_of_conflicts + iv.nc
    is_goal := false
    wait_at_goal := decide (next_location = env.goal_location ∧
                            curr.location = env.goal_location)
    in_openlist := false }

/-- `SIPP::generateChildToFocal` (mode A): build the child, look it up in the
    hash table, and either insert it into FOCAL or update the existing node
    when the new one has a smaller timestep (or equal timestep and fewer
    conflicts), reopening the existing node if it was closed. -/
def generateChildToFocal (env : SIPPEnv) (iv : SInterval)
    (c next_location next_h_val : Nat) (s : StateA) : StateA :=
  let nd := mkChildA env iv c next_location next_h_val s.arena
  match findKey s.arena nd with
  | none =>
      { s with
        arena := s.arena ++ [{ nd with in_openlist := true }]
        focal := s.focal ++ [s.arena.length]
        num_generated := s.num_generated + 1 }
  | some j =>
      let ex := nodeAt s.arena j
      if replacesKey nd ex then
        let ex2 := SIPPNode.copyFrom ex nd
        if ex.in_openlist then
          { s with arena := s.arena.set j ex2 }
        else
          { s with
            arena := s.arena.set j { ex2 with in_openlist := true }
            focal := s.focal ++ [j] }
      else s

/-- `SIPP::updatePath`: walk the parent chain from `i` to the root, emitting
    for every parent→child link the waits at the parent's cell (timesteps
    strictly between `parent.timestep` and `child.timestep`) followed by the
    child's cell; the root contributes the entry at timestep `0`.  This is
    the functional form of the array-filling loop of the source, equal to it
    whenever the chain has strictly increasing timesteps and its root has
    timestep `0` (which the source asserts).  `fuel` bounds the walk; calls
    pass the node's timestep, which the chain invariant proves sufficient. -/
def updatePath (arena : List SIPPNode) : Nat → Nat → Path
  | 0, i => [(nodeAt arena i).location]
  | fuel + 1, i =>
      let n := nodeAt arena i
      match n.parent with
      | none => [n.location]
      | some p =>
          let pn := nodeAt arena p
          updatePath arena fuel p ++
            List.replicate (n.timestep - pn.timestep - 1) pn.location ++ [n.location]

/-- The virtual goal node of lines 70–74 of `SIPP::findPath`: a copy of the
    current node tagged `is_goal`, with the current node as parent and the
    future-collision count `fc` added to its conflict count. -/
def mkGoalNode (c fc : Nat) (arena : List SIPPNode) : SIPPNode :=
  { nodeAt arena c with
    is_goal := true
    parent := some c
    num_of_conflicts := (nodeAt arena c).num_of_conflicts + fc }

/-- Lines 54–97 of `SIPP::findPath`: handle a popped goal-tagged node, or a
    popped node at the goal location that may terminate the search or spawn a
    virtual goal node.  `Sum.inr` means the search returns. -/
def goalBranch (env : SIPPEnv) (c : Nat) (s : StateA) : StateA ⊕ (Path × StateA) :=
  let curr := nodeAt s.arena c
  if curr.is_goal then
    let p := curr.parent.getD 0
    .inr (updatePath s.arena (nodeAt s.arena p).timestep p, s)
  else if curr.location = env.goal_location ∧ curr.wait_at_goal = false ∧
          env.holding_time ≤ curr.timestep then
    let fc := env.getFutureNumOfCollisions curr.location curr.timestep
    if fc = 0 then
      .inr (updatePath s.arena curr.timestep c, s)
    else
      let g : SIPPNode := mkGoalNode c fc s.arena
      match findKey s.arena g with
      | none =>
          .inl { s with
                 arena := s.arena ++ [{ g with in_openlist := true }]
                 focal := s.focal ++ [s.arena.length]
                 num_generated := s.num_generated + 1 }
      | some j =>
          let ex := nodeAt s.arena j
          if replacesKey g ex then
            .inl { s with arena := s.arena.set j (SIPPNode.copyFrom ex g) }
          else .inl s
  else .inl s

/-- The inner interval loop of lines 101–108 of `SIPP::findPath`, including
    the `break` on the first interval whose earliest arrival plus the plain
    heuristic exceeds `length_max`. -/
def moveIntervalLoop (env : SIPPEnv) (c next_location next_h_val : Nat) :
    List SInterval → StateA → StateA
  | [], s => s
  | iv :: rest, s =>
      let curr := nodeAt s.arena c
      let next_timestep := max (curr.timestep + 1) iv.low
      if env.length_max < next_timestep + next_h_val then s
      else
        moveIntervalLoop env c next_location next_h_val rest
          (generateChildToFocal env iv c next_location next_h_val s)

/-- Lines 98–109 of `SIPP::findPath`: expand the popped node to all
    neighboring locations. -/
def moveExpansions (env : SIPPEnv) (c : Nat) (s : StateA) : StateA :=
  let curr := nodeAt s.arena c
  (env.getNeighbors curr.location).foldl
    (fun s2 next_location =>
      moveIntervalLoop env c next_location (env.my_heuristic next_location)
        (env.get_safe_intervals curr.location next_location
          (curr.timestep + 1) (curr.interval.high + 1)) s2)
    s

/-- Lines 110–115 of `SIPP::findPath`: generate the wait child at the current
    location from the next safe interval, if one exists. -/
def waitExpansion (env : SIPPEnv) (c : Nat) (s : StateA) : StateA :=
  let curr := nodeAt s.arena c
  match env.find_safe_interval curr.location curr.interval.high with
  | some iv => generateChildToFocal env iv c curr.location curr.h_val s
  | none => s

/-- The body of the `while` loop of `SIPP::findPath` after the pop of node
    `c` (lines 54–115). -/
def findPathExpand (env : SIPPEnv) (c : Nat) (s : StateA) : StateA ⊕ (Path × StateA) :=
  match goalBranch env c s with
  | .inr done => .inr done
  | .inl s2 => .inl (waitExpansion env c (moveExpansions env c s2))

/-- Lines 49–52 of the source (shared shape with lines 173–176): remove the
    popped node from the queues and mark it closed. -/
def popA (c : Nat) (s : StateA) : StateA :=
  { arena := s.arena.set c { nodeAt s.arena c with in_openlist := false }
    focal := s.focal.filter (· ≠ c)
    num_expanded := s.num_expanded + 1
    num_generated := s.num_generated }

/-- The `while (!focal_list.empty())` loop of `SIPP::findPath`, on fuel. -/
def findPathLoop (env : SIPPEnv) : Nat → StateA → Path × StateA
  | 0, s => ([], s)
  | fuel + 1, s =>
      match selectMin focalLt s.arena s.focal with
      | none => ([], s)
      | some c =>
          match findPathExpand env c (popA c s) with
          | .inr done => done
          | .inl s2 => findPathLoop env fuel s2

/-- The start node (`new SIPPNode(start_location, 0,
    max(my_heuristic[start_location], holding_time), nullptr, 0, interval, 0)`),
    shared by both search modes. -/
def mkStart (env : SIPPEnv) (iv : SInterval) : SIPPNode :=
  { location := env.start_location
    g_val := 0
    h_val := max (env.my_heuristic env.start_location) env.holding_time
    parent := none
    timestep := 0
    interval := iv
    num_of_conflicts := 0
    is_goal := false
    wait_at_goal := false
    in_openlist := true }

/-- `SIPP::findPath` (mode A): the minimum-collision focal-only search. -/
def findPath (env : SIPPEnv) (fuel : Nat) : Path × StateA :=
  let iv := env.get_first_safe_interval env.start_location
  if 0 < iv.low then ([], ⟨[], [], 0, 0⟩)
  else findPathLoop env fuel ⟨[mkStart env iv], [0], 0, 1⟩

/-- The FOCAL qualification test `f ≤ w * m` of the source, computed exactly
    on the rational `w` through its numerator and denominator (the source
    computes it in `double`; all quantities involved are small integers, for
    which the `double` computation is exact). -/
def leMulQ (w : ℚ) (f m : Nat) : Bool :=
  decide ((f : Int) * w.den ≤ w.num * m)

/-- The mutable state of one mode-B (`findSuboptimalPath`) search.
    `popTrace` instruments the sequence of pops from FOCAL (location,
    timestep and wait-at-goal flag of each popped node, in order); it is
    ghost bookkeeping that no search decision reads. -/
structure StateB where
  arena : List SIPPNode
  open_list : List Nat
  focal : List Nat
  min_f_val : Nat
  num_expanded : Nat
  num_generated : Nat
  popTrace : List (Nat × Nat × Bool)
deriving Repr

/-- `SIPP::pushNode` (mode B): push into OPEN, and into FOCAL when
    `f ≤ w * min_f_val`. -/
def pushNode (w : ℚ) (j : Nat) (s : StateB) : StateB :=
  let s2 := { s with
    open_list := s.open_list ++ [j]
    arena := s.arena.set j { nodeAt s.arena j with in_openlist := true }
    num_generated := s.num_generated + 1 }
  if leMulQ w (nodeAt s2.arena j).getFVal s2.min_f_val then
    { s2 with focal := s2.focal ++ [j] }
  else s2

/-- `SIPP::updateFocalList`: when the OPEN head's `f` exceeds `min_f_val`,
    migrate every open node whose `f` lies in `(w * min_f_val, w * new_min_f_val]`
    into FOCAL and raise `min_f_val`. -/
def updateFocalList (w : ℚ) (s : StateB) : StateB :=
  match selectMin openLt s.arena s.open_list with
  | none => s
  | some hd =>
      let newf := (nodeAt s.arena hd).getFVal
      if s.min_f_val < newf then
        let added := s.open_list.filter fun i =>
          !leMulQ w (nodeAt s.arena i).getFVal s.min_f_val &&
          leMulQ w (nodeAt s.arena i).getFVal newf
        { s with focal := s.focal ++ added, min_f_val := newf }
      else s

/-- The child node built by `SIPP::generateChild` before duplicate
    detection: `g = next_timestep`, path-maxed `h`, and conflict count
    `curr->num_of_conflicts + (int)get<2>(interval) * (next_timestep - curr->timestep)`. -/
def mkChildB (env : SIPPEnv) (iv : SInterval) (c next_location : Nat)
    (arena : List SIPPNode) : SIPPNode :=
  let curr := nodeAt arena c
  let next_timestep := max (curr.timestep + 1) iv.low
  { location := next_location
    g_val := next_timestep
    h_val := max (env.my_heuristic next_location) (curr.getFVal - next_timestep)
    parent := some c
    timestep := next_timestep
    interval := iv
    num_of_conflicts :=
      curr.num_of_conflicts + iv.nc * (next_timestep - curr.timestep)
    is_goal := false
    wait_at_goal := decide (next_location = env.goal_location ∧
                            curr.location = env.goal_location)
    in_openlist := false }

/-- `SIPP::generateChild` (mode B): prune when `g + h > length_max`, then
    insert the child or update the hash-table duplicate, handling the four
    OPEN/FOCAL membership cases of the source. -/
def generateChild (env : SIPPEnv) (w : ℚ) (iv : SInterval)
    (c next_location : Nat) (s : StateB) : StateB :=
  let nd := mkChildB env iv c next_location s.arena
  if env.length_max < nd.g_val + nd.h_val then s
  else
    match findKey s.arena nd with
    | none =>
        pushNode w s.arena.length { s with arena := s.arena ++ [nd] }
    | some j =>
        let ex := nodeAt s.arena j
        if replacesKey nd ex then
          if ex.in_openlist = false then
            pushNode w j { s with arena := s.arena.set j (SIPPNode.copyFrom ex nd) }
          else
            let s2 := { s with arena := s.arena.set j (SIPPNode.copyFrom ex nd) }
            if leMulQ w nd.getFVal s.min_f_val ∧
               ¬ (leMulQ w ex.getFVal s.min_f_val = true) then
              { s2 with focal := s2.focal ++ [j] }
            else s2
        else s

/-- Lines 173–177 of the source: pop `c` from FOCAL, erase it from OPEN and
    mark it closed (recording the pop in the ghost trace). -/
def popB (c : Nat) (s : StateB) : StateB :=
  { s with
    focal := s.focal.filter (· ≠ c)
    open_list := s.open_list.filter (· ≠ c)
    arena := s.arena.set c { nodeAt s.arena c with in_openlist := false }
    num_expanded := s.num_expanded + 1
    popTrace := s.popTrace ++
      [((nodeAt s.arena c).location, (nodeAt s.arena c).timestep,
        (nodeAt s.arena c).wait_at_goal)] }

/-- Lines 187–201 of the source: expand the popped node `c` to all neighbors
    and generate its wait child. -/
def expandB (env : SIPPEnv) (w : ℚ) (c : Nat) (s1 : StateB) : StateB :=
  let curr := nodeAt s1.arena c
  let s2 := (env.getNeighbors curr.location).foldl
    (fun sacc next_location =>
      (env.get_safe_intervals curr.location next_location
          (curr.timestep + 1) (curr.interval.high + 1)).foldl
        (fun sacc2 iv => generateChild env w iv c next_location sacc2)
        sacc)
    s1
  match env.find_safe_interval curr.location curr.interval.high with
  | some iv => generateChild env w iv c curr.location s2
  | none => s2

/-- The `while (!open_list.empty())` loop of `SIPP::findSuboptimalPath`,
    on fuel. -/
def findSubLoop (env : SIPPEnv) (w : ℚ) : Nat → StateB → Path × StateB
  | 0, s => ([], s)
  | fuel + 1, s =>
      if s.open_list.isEmpty then ([], s)
      else
        let s0 := updateFocalList w s
        match selectMin focalLt s0.arena s0.focal with
        | none => ([], s0)
        | some c =>
            let s1 := popB c s0
            let curr := nodeAt s1.arena c
            if curr.location = env.goal_location ∧ curr.wait_at_goal = false ∧
               env.holding_time ≤ curr.timestep then
              (updatePath s1.arena curr.timestep c, s1)
            else findSubLoop env w fuel (expandB env w c s1)

/-- `SIPP::findSuboptimalPath` (mode B): the `w`-bounded OPEN+FOCAL search.
    The constraint/reservation tables the source builds from
    `(node, initial_constraints, paths, agent)` are the collaborator
    functions of `env`. -/
def findSuboptimalPath (env : SIPPEnv) (lowerbound : Nat) (w : ℚ) (fuel : Nat) :
    (Path × Nat) × StateB :=
  let iv := env.get_first_safe_interval env.start_location
  if 0 < iv.low then (([], 0), ⟨[], [], [], 0, 0, 0, []⟩)
  else
    let start := mkStart env iv
    let s0 : StateB :=
      { arena := [start], open_list := [0], focal := [0]
        min_f_val := max env.holding_time (max start.getFVal lowerbound)
        num_expanded := 0, num_generated := 1, popTrace := [] }
    let r := findSubLoop env w fuel s0
    ((r.1, r.2.min_f_val), r.2)

/-- `SIPP::findOptimalPath`: the bounded-suboptimal search specialized to
    `w = 1`, keeping only the path. -/
def findOptimalPath (env : SIPPEnv) (lowerbound : Nat) (fuel : Nat) : Path :=
  (findSuboptimalPath env lowerbound 1 fuel).1.1

/-! ## Adjacency of a path and qualification of a popped node -/

/-- Consecutive path entries are equal (wait) or grid-adjacent. -/
def pathAdj (env : SIPPEnv) : Path → Prop
  | [] => True
  | [_] => True
  | a :: b :: rest =>
      (b = a ∨ b ∈ env.getNeighbors a) ∧ pathAdj env (b :: rest)

/-- The termination test of the mode-B pop (line 179–181 of the source),
    on a recorded pop-trace entry `(location, timestep, wait_at_goal)`. -/
def qualPop (env : SIPPEnv) (e : Nat × Nat × Bool) : Prop :=
  e.1 = env.goal_location ∧ e.2.2 = false ∧ env.holding_time ≤ e.2.1

/-- The pop condition named by claim C6 (which omits the wait-at-goal test). -/
def qualPopNoWait (env : SIPPEnv) (e : Nat × Nat × Bool) : Prop :=
  e.1 = env.goal_location ∧ env.holding_time ≤ e.2.1

instance (env : SIPPEnv) (e : Nat × Nat × Bool) : Decidable (qualPop env e) := by
  unfold qualPop
  infer_instance

instance (env : SIPPEnv) (e : Nat × Nat × Bool) : Decidable (qualPopNoWait env e) := by
  unfold qualPopNoWait
  infer_instance

instance pathAdjDec (env : SIPPEnv) : (q : Path) → Decidable (pathAdj env q)
  | [] => isTrue trivial
  | [_] => isTrue trivial
  | a :: b :: rest =>
      match pathAdjDec env (b :: rest) with
      | isTrue h =>
          if h2 : b = a ∨ b ∈ env.getNeighbors a then isTrue ⟨h2, h⟩
          else isFalse fun hc => h2 hc.1
      | isFalse h => isFalse fun hc => h hc.2

/-! ## The parent-chain invariant

Every node the search stores satisfies: a parentless node is the start node
(timestep `0`, start location, not goal-tagged); a node with a parent points
to a valid, non-goal-tagged arena entry, and either is goal-tagged (then it
shares the parent's location, which is the goal location) or has a strictly
larger timestep than its parent and a location equal or adjacent to the
parent's. -/

/-- The per-node chain invariant. -/
def nodeInv (env : SIPPEnv) (arena : List SIPPNode) (n : SIPPNode) : Prop :=
  (n.parent = none →
     n.timestep = 0 ∧ n.location = env.start_location ∧ n.is_goal = false) ∧
  (∀ p, n.parent = some p →
     p < arena.length ∧
     (nodeAt arena p).is_goal = false ∧
     (n.is_goal = true →
        (nodeAt arena p).location = n.location ∧ n.location = env.goal_location) ∧
     (n.is_goal = false →
        (nodeAt arena p).timestep < n.timestep ∧
        (n.location = (nodeAt arena p).location ∨
         n.location ∈ env.getNeighbors (nodeAt arena p).location)))

/-- The arena-wide chain invariant. -/
def ChainInv (env : SIPPEnv) (arena : List SIPPNode) : Prop :=
  ∀ i, i < arena.length → nodeInv env arena (nodeAt arena i)

/-- The mode-A state invariant: chain-invariant arena and in-range FOCAL
    indices. -/
def InvStateA (env : SIPPEnv) (s : StateA) : Prop :=
  ChainInv env s.arena ∧ ∀ i ∈ s.focal, i < s.arena.length

/-- The mode-B state invariant, relative to the suboptimality factor `w` and
    the floor `L = max holding_time lowerbound` of `min_f_val`: the arena is
    chain-invariant, holds no goal-tagged node, and every node has
    `g = timestep` and, for every equal-or-adjacent path `q` leading from the
    node's cell to the goal, `f ≤ max (timestep + cost q) holding_time` (the
    path-maxed `f` never exceeds the timed cost of completing the path, for
    an admissible heuristic); OPEN holds in-range indices and FOCAL is a
    subset of OPEN; the `in_openlist` flag mirrors OPEN membership;
    `min_f_val` is at most `max L f` of every open node; and every FOCAL
    member has `g ≤ w * min_f_val`. -/
def InvStateB (env : SIPPEnv) (w : ℚ) (L : Nat) (s : StateB) : Prop :=
  ChainInv env s.arena ∧
  (∀ i, i < s.arena.length → (nodeAt s.arena i).is_goal = false) ∧
  (∀ i, i < s.arena.length →
     (nodeAt s.arena i).g_val = (nodeAt s.arena i).timestep) ∧
  (∀ i, i < s.arena.length →
     ∀ q : Path, pathAdj env q →
       q.head? = some (nodeAt s.arena i).location →
       q.getLast? = some env.goal_location →
       (nodeAt s.arena i).getFVal ≤
         max ((nodeAt s.arena i).timestep + (q.length - 1))
           env.holding_time) ∧
  (∀ i ∈ s.open_list, i < s.arena.length) ∧
  (∀ i ∈ s.focal, i ∈ s.open_list) ∧
  (∀ i, i < s.arena.length →
     ((nodeAt s.arena i).in_openlist = true ↔ i ∈ s.open_list)) ∧
  (∀ i ∈ s.open_list, s.min_f_val ≤ max L (nodeAt s.arena i).getFVal) ∧
  (∀ i ∈ s.focal, ((nodeAt s.arena i).g_val : ℚ) ≤ w * s.min_f_val)

/-! ## Concrete environments used by witnesses and counterexamples

All of them are honest instantiations of the collaborator interfaces: the
safe intervals are disjoint and increasing, transition collision counts agree
with a fixed set of other agents' paths, and `holding_time`/`length_max` come
from the corresponding constraint-table fields. -/

/-- A large stand-in for an unbounded interval upper end / `MAX_TIMESTEP`. -/
def BIG : Nat := 1000000

/-- Two adjacent cells `0 — 1`, no constraints, no other agents:
    start `0`, goal `1`. -/
def envFree : SIPPEnv where
  start_location := 0
  goal_location := 1
  my_heuristic := fun c => if c = 0 then 1 else 0
  getNeighbors := fun c => if c = 0 then [1] else if c = 1 then [0] else []
  length_max := 1000
  holding_time := 0
  getFutureNumOfCollisions := fun _ _ => 0
  get_first_safe_interval := fun _ => ⟨0, BIG, 0⟩
  get_safe_intervals := fun l nxt _ _ =>
    if l = 0 ∧ nxt = 1 then [⟨0, BIG, 0⟩]
    else if l = 1 ∧ nxt = 0 then [⟨0, BIG, 0⟩] else []
  find_safe_interval := fun _ _ => none

/-- `envFree` with the start cell hard-blocked at time `0` (its first safe
    interval starts at `1`). -/
def envBlocked : SIPPEnv :=
  { envFree with get_first_safe_interval := fun _ => ⟨1, BIG, 0⟩ }

/-- The environment of the C10 failing input.  Grid (by adjacency):
    a five-edge line `0-2-3-4-5-1` and a three-edge detour `0-6-7-1`;
    start `0`, goal `1`.  One other agent is parked on cell `1` (the goal)
    forever, and another on cell `6`: entering `1` or `6` therefore carries
    one soft collision, and `getFutureNumOfCollisions(1, t) = 1` for every
    `t`.  There are no hard constraints, and the high level imposes
    `length_min = 5`, so the holding time is `5`. -/
def envC10 : SIPPEnv where
  start_location := 0
  goal_location := 1
  my_heuristic := fun c =>
    if c = 0 then 3 else if c = 1 then 0 else if c = 2 then 4 else
    if c = 3 then 3 else if c = 4 then 2 else if c = 5 then 1 else
    if c = 6 then 2 else if c = 7 then 1 else 0
  getNeighbors := fun c =>
    if c = 0 then [2, 6] else if c = 2 then [0, 3] else if c = 3 then [2, 4] else
    if c = 4 then [3, 5] else if c = 5 then [4, 1] else if c = 1 then [5, 7] else
    if c = 6 then [0, 7] else if c = 7 then [6, 1] else []
  length_max := BIG
  holding_time := 5
  getFutureNumOfCollisions := fun c _ => if c = 1 then 1 else 0
  get_first_safe_interval := fun _ => ⟨0, BIG, 0⟩
  get_safe_intervals := fun _ nxt _ _ =>
    [⟨0, BIG, if nxt = 1 then 1 else if nxt = 6 then 1 else 0⟩]
  find_safe_interval := fun _ _ => none

/-- The environment of the C8 counterexample: cells `0 — 1`, start `0`,
    goal `1`, `length_max = 2`, and cell `0` hard-blocked during `[3, 5)`
    (so its safe intervals are `[0,3)` and `[5,∞)`, and waiting at `0`
    beyond its first interval jumps to timestep `5`). -/
def envC8 : SIPPEnv where
  start_location := 0
  goal_location := 1
  my_heuristic := fun c => if c = 0 then 1 else 0
  getNeighbors := fun c => if c = 0 then [1] else if c = 1 then [0] else []
  length_max := 2
  holding_time := 0
  getFutureNumOfCollisions := fun _ _ => 0
  get_first_safe_interval := fun _ => ⟨0, 3, 0⟩
  get_safe_intervals := fun l nxt _ _ =>
    if l = 0 ∧ nxt = 1 then [⟨0, 3, 0⟩] else if l = 1 ∧ nxt = 0 then [⟨0, 3, 0⟩] else []
  find_safe_interval := fun l t => if l = 0 ∧ t = 3 then some ⟨5, BIG, 0⟩ else none

/-- The environment of the C6 counterexample: cells `0 — 1`, start `0`,
    goal `1`.  Another agent occupies cell `1` during `[2, 3)`, so cell `1`'s
    intervals are split (soft) at `2`, `3` and (goal clipping at
    `length_min = 4`, whence `holding_time = 4`) at `4`; the edge `0 → 1` is
    hard-blocked from time `4` on, so the only way to reach the goal interval
    `[4, ∞)` is by waiting at the goal. -/
def envC6 : SIPPEnv where
  start_location := 0
  goal_location := 1
  my_heuristic := fun c => if c = 0 then 1 else 0
  getNeighbors := fun c => if c = 0 then [1] else if c = 1 then [0] else []
  length_max := 1000
  holding_time := 4
  getFutureNumOfCollisions := fun _ _ => 0
  get_first_safe_interval := fun _ => ⟨0, BIG, 0⟩
  get_safe_intervals := fun l nxt _ _ =>
    if l = 0 ∧ nxt = 1 then [⟨0, 2, 0⟩, ⟨2, 3, 1⟩, ⟨3, 4, 0⟩]
    else if l = 1 ∧ nxt = 0 then [⟨0, BIG, 0⟩] else []
  find_safe_interval := fun l t =>
    if l = 1 then
      (if t = 2 then some ⟨2, 3, 1⟩ else if t = 3 then some ⟨3, 4, 0⟩ else
       if t = 4 then some ⟨4, BIG, 0⟩ else none)
    else none

/-- Cell safe intervals of the C2 counterexample instance (see `envC2`):
    the goal cell `1` is hard-blocked at time `8` and softly occupied by the
    other agent during `[9, 12)`; cell `3` is softly occupied during `[0, 9)`
    and from `12` on; cells `0` and `2` are free. -/
def cellIvsC2 (c : Nat) : List SInterval :=
  if c = 1 then [⟨0, 8, 0⟩, ⟨9, 12, 1⟩, ⟨12, BIG, 0⟩]
  else if c = 3 then [⟨0, 9, 1⟩, ⟨9, 12, 0⟩, ⟨12, BIG, 1⟩]
  else [⟨0, BIG, 0⟩]

/-- Transition safe intervals of the C2 counterexample instance: the target
    cell's intervals, with the reverse-edge (swap) collisions of the other
    agent's moves `3→1` (arriving `9`) and `1→3` (arriving `12`) added to
    the transitions `1→3` and `3→1` for the intervals containing the
    matching step. -/
def transIvsC2 (l nxt : Nat) : List SInterval :=
  if nxt = 1 then
    if l = 3 then [⟨0, 8, 0⟩, ⟨9, 12, 1⟩, ⟨12, BIG, 1⟩]
    else [⟨0, 8, 0⟩, ⟨9, 12, 1⟩, ⟨12, BIG, 0⟩]
  else if nxt = 3 then [⟨0, 9, 1⟩, ⟨9, 12, 1⟩, ⟨12, BIG, 1⟩]
  else [⟨0, BIG, 0⟩]

/-- The environment of the C2 counterexample.  Grid: a line `0 — 2 — 1` plus
    a leaf `3` adjacent to the goal `1`; start `0`, goal `1`.  One hard
    (high-level) constraint forbids the goal cell `1` at time `8`, so with
    `length_min = 0` the holding time is `9`.  One other agent (soft, via
    the collision-avoidance table) sits on cell `3` during `[0, 9)`, moves
    to the goal `1` for `[9, 12)`, and returns to `3` from `12` on.  The
    heuristic is the exact grid distance to the goal (admissible, even
    consistent).  `get_safe_intervals` filters the transition intervals by
    the queried window exactly as the spec prescribes (the earliest feasible
    arrival `max lo low` falls in `[lo, hi)` and inside the interval);
    `find_safe_interval` yields the first cell interval starting at or after
    the queried time; `getFutureNumOfCollisions` is never queried by the
    mode-B search. -/
def envC2 : SIPPEnv where
  start_location := 0
  goal_location := 1
  my_heuristic := fun c =>
    if c = 0 then 2 else if c = 2 then 1 else if c = 3 then 1 else 0
  getNeighbors := fun c =>
    if c = 0 then [2] else if c = 2 then [0, 1] else
    if c = 1 then [2, 3] else if c = 3 then [1] else []
  length_max := BIG
  holding_time := 9
  getFutureNumOfCollisions := fun _ _ => 0
  get_first_safe_interval := fun c => (cellIvsC2 c).headD ⟨0, BIG, 0⟩
  get_safe_intervals := fun l nxt lo hi =>
    (transIvsC2 l nxt).filter (fun iv => max lo iv.low < min hi iv.high)
  find_safe_interval := fun c t => (cellIvsC2 c).find? (fun iv => t ≤ iv.low)

/-- A popped current node for the C5 and C7 witness states: at cell `0`,
    timestep `0`, no conflicts, closed (just popped). -/
def currC5 : SIPPNode :=
  ⟨0, 0, 4, none, 0, ⟨0, 10, 0⟩, 0, false, false, false⟩

/-- Mode-A state holding only `currC5`. -/
def sC5A : StateA := ⟨[currC5], [], 1, 1⟩

/-- Mode-B state holding only `currC5`. -/
def sC5B : StateB := ⟨[currC5], [], [], 4, 1, 1, []⟩

/-- The interval used by the C5 counterexample: it starts at `3` (so a child
    generated from `currC5` waits during timesteps `1, 2` and arrives at
    `3`), and it carries one soft collision per step. -/
def ivC5 : SInterval := ⟨3, 10, 1⟩

/-- An interval starting at `0` for the duplicate-handling witnesses. -/
def ivC7 : SInterval := ⟨0, 10, 0⟩

/-- An open node at cell `1` with interval low `0` and timestep `5`: the
    stored duplicate that a newly generated child (timestep `1`) beats. -/
def exC7 : SIPPNode := ⟨1, 5, 0, none, 5, ⟨0, 10, 0⟩, 0, false, false, true⟩

/-- Mode-A state for the duplicate-handling witness: the popped `currC5`
    and the stored open node `exC7`. -/
def sC7 : StateA := ⟨[currC5, exC7], [1], 1, 2⟩

/-- A popped node at the goal cell `1` of `envC10`, at timestep `5` (the
    holding time), with no conflicts. -/
def currG : SIPPNode := ⟨1, 5, 0, none, 5, ⟨0, BIG, 0⟩, 0, false, false, false⟩

/-- A stored open virtual goal node at cell `1`, interval low `0`,
    timestep `7`, five conflicts. -/
def exG : SIPPNode := ⟨1, 7, 0, none, 7, ⟨0, BIG, 0⟩, 5, true, false, true⟩

/-- Mode-A state for the goal-node duplicate witness. -/
def sC7G : StateA := ⟨[currG, exG], [1], 1, 2⟩

/-- Mode-A state for the C4 witness, fresh-goal-node case: only the popped
    node at the goal (`envC10` reports one future collision there). -/
def sC4B : StateA := ⟨[currG], [], 1, 1⟩

/-- A popped node at `envFree`'s goal with timestep `3` and zero future
    collisions: the direct-termination case of C4. -/
def sC4A : StateA := ⟨[⟨1, 3, 0, none, 3, ⟨0, BIG, 0⟩, 0, false, false, false⟩], [], 1, 1⟩

/-- Mode-A state for the C4 witness, goal-node-pop case: a root node at the
    goal and a popped virtual goal node whose parent is the root. -/
def sC4C : StateA :=
  ⟨[⟨1, 3, 0, none, 3, ⟨0, BIG, 0⟩, 0, false, false, false⟩,
    ⟨1, 3, 0, some 0, 3, ⟨0, BIG, 0⟩, 2, true, false, false⟩], [], 2, 2⟩

end SIPP

/-! # Theorems -/

namespace SIPP

/-! ## Arena access helpers -/

theorem nodeAt_append_lt (l : List SIPPNode) (x : SIPPNode) (i : Nat)
    (h : i < l.length) : nodeAt (l ++ [x]) i = nodeAt l i := by
  simp [nodeAt, List.getD_eq_getElem?_getD, List.getElem?_append_left h]

theorem nodeAt_append_self (l : List SIPPNode) (x : SIPPNode) :
    nodeAt (l ++ [x]) l.length = x := by
  simp [nodeAt, List.getD_eq_getElem?_getD]

theorem nodeAt_set_self (l : List SIPPNode) (x : SIPPNode) (j : Nat)
    (h : j < l.length) : nodeAt (l.set j x) j = x := by
  simp [nodeAt, List.getD_eq_getElem?_getD, List.getElem?_set_self, h]

theorem nodeAt_set_ne (l : List SIPPNode) (x : SIPPNode) (i j : Nat)
    (h : i ≠ j) : nodeAt (l.set j x) i = nodeAt l i := by
  simp [nodeAt, List.getD_eq_getElem?_getD, List.getElem?_set_ne h.symm]

theorem findKey_some (arena : List SIPPNode) (n : SIPPNode) (j : Nat)
    (h : findKey arena n = some j) :
    j < arena.length ∧ SIPPNode.sameKey (nodeAt arena j) n = true := by
  unfold findKey at h
  have h1 := List.find?_some h
  have h2 := List.mem_range.mp (List.mem_of_find?_eq_some h)
  exact ⟨h2, h1⟩

theorem leMulQ_iff (w : ℚ) (f m : Nat) : leMulQ w f m = true ↔ (f : ℚ) ≤ w * m := by
  unfold leMulQ
  rw [decide_eq_true_iff]
  have hden : (0 : ℚ) < ((w.den : Int) : ℚ) := by exact_mod_cast w.den_pos
  have h1 : w * ((w.den : Int) : ℚ) = ((w.num : Int) : ℚ) := by
    nth_rewrite 1 [← Rat.num_div_den w]
    push_cast
    field_simp
  have hw : w * (m : ℚ) = ((w.num * m : Int) : ℚ) / ((w.den : Int) : ℚ) := by
    rw [eq_div_iff hden.ne']
    push_cast
    calc w * (m : ℚ) * ((w.den : ℚ)) = w * ((w.den : ℚ)) * m := by ring
    _ = ((w.num : ℚ)) * m := by
        have h2 := h1
        push_cast at h2
        rw [h2]
  rw [hw, le_div_iff₀ hden]
  constructor
  · intro h
    exact_mod_cast h
  · intro h
    exact_mod_cast h

/-- C9: `SIPP::findOptimalPath(node, initial_constraints, paths, agent,
    lowerbound)` returns exactly the path component of
    `SIPP::findSuboptimalPath(node, initial_constraints, paths, agent,
    lowerbound, 1)`: the optimal entry point is the bounded-suboptimal
    search specialized to `w = 1`. -/
theorem findOptimalPath_is_findSuboptimalPath_at_one
    (env : SIPPEnv) (lowerbound fuel : Nat) :
    findOptimalPath env lowerbound fuel =
      (findSuboptimalPath env lowerbound 1 fuel).1.1 := rfl

/-- C3: when the first safe interval of the start location starts after
    time `0`, both `findPath` and `findSuboptimalPath` return the empty path
    immediately, without expanding any node, and `findSuboptimalPath` returns
    `0` as the second component of its pair. -/
theorem blocked_start_returns_empty (env : SIPPEnv) (fuel lowerbound : Nat) (w : ℚ)
    (h : 0 < (env.get_first_safe_interval env.start_location).low) :
    (findPath env fuel).1 = [] ∧ (findPath env fuel).2.num_expanded = 0 ∧
    (findSuboptimalPath env lowerbound w fuel).1 = ([], 0) ∧
    (findSuboptimalPath env lowerbound w fuel).2.num_expanded = 0 := by
  unfold findPath findSuboptimalPath
  rw [if_pos h, if_pos h]
  exact ⟨rfl, rfl, rfl, rfl⟩

theorem blocked_start_returns_empty_witness :
    0 < (envBlocked.get_first_safe_interval envBlocked.start_location).low ∧
    ((findPath envBlocked 5).1 = [] ∧ (findPath envBlocked 5).2.num_expanded = 0 ∧
     (findSuboptimalPath envBlocked 0 1 5).1 = ([], 0) ∧
     (findSuboptimalPath envBlocked 0 1 5).2.num_expanded = 0) :=
  ⟨by decide, blocked_start_returns_empty envBlocked 5 0 1 (by decide)⟩

/-- C5 counterexample.  From `currC5` (timestep `0`, no conflicts) across
    the interval `ivC5 = [3, 10)` with per-step collision count `1`, the
    child arrives at timestep `3` after two waiting steps.  The claim
    predicts a mode-A conflict count of `0 + 1 * (3 - 0) = 3` and a mode-B
    conflict count of `0 + 1 = 1`; the code produces the opposite:
    `generateChildToFocal` (mode A) stores `1` and `generateChild` (mode B)
    stores `3`. -/
theorem modeA_multiplies_collisions_counterexample :
    (nodeAt (generateChildToFocal envFree ivC5 0 1 0 sC5A).arena 1).num_of_conflicts = 1 ∧
    (nodeAt (generateChildToFocal envFree ivC5 0 1 0 sC5A).arena 1).num_of_conflicts ≠ 3 ∧
    (nodeAt (generateChild envFree 1 ivC5 0 1 sC5B).arena 1).num_of_conflicts = 3 ∧
    (nodeAt (generateChild envFree 1 ivC5 0 1 sC5B).arena 1).num_of_conflicts ≠ 1 := by
  decide

/-- C5 (amended): when the child's arrival `next_timestep` is later than
    `curr.timestep + 1`, it is mode B (`generateChild`) that multiplies the
    interval's per-step collision count by `next_timestep - curr.timestep`,
    while mode A (`generateChildToFocal`) adds the raw interval collision
    count exactly once.  Stated for freshly inserted children (hash miss;
    duplicate handling is claim C7's concern), with the mode-B child below
    the `length_max` prune. -/
theorem child_collision_counts (env : SIPPEnv) (w : ℚ) (iv : SInterval)
    (c next_location next_h_val : Nat) (sA : StateA) (sB : StateB)
    (hA : findKey sA.arena (mkChildA env iv c next_location next_h_val sA.arena) = none)
    (hB : findKey sB.arena (mkChildB env iv c next_location sB.arena) = none)
    (hBmax : ¬ (env.length_max < (mkChildB env iv c next_location sB.arena).g_val +
                  (mkChildB env iv c next_location sB.arena).h_val)) :
    (nodeAt (generateChildToFocal env iv c next_location next_h_val sA).arena
        sA.arena.length).num_of_conflicts =
      (nodeAt sA.arena c).num_of_conflicts + iv.nc ∧
    (nodeAt (generateChild env w iv c next_location sB).arena
        sB.arena.length).num_of_conflicts =
      (nodeAt sB.arena c).num_of_conflicts +
        iv.nc * (max ((nodeAt sB.arena c).timestep + 1) iv.low -
                   (nodeAt sB.arena c).timestep) := by
  constructor
  · simp only [generateChildToFocal, hA]
    simp only [nodeAt_append_self]
    rfl
  · simp only [generateChild, if_neg hBmax, hB, pushNode]
    have hlen : sB.arena.length < (sB.arena ++ [mkChildB env iv c next_location sB.arena]).length := by
      simp
    by_cases hq : leMulQ w (nodeAt ((sB.arena ++ [mkChildB env iv c next_location sB.arena]).set
        sB.arena.length { nodeAt (sB.arena ++ [mkChildB env iv c next_location sB.arena])
          sB.arena.length with in_openlist := true }) sB.arena.length).getFVal sB.min_f_val = true
    · rw [if_pos hq]
      simp only [nodeAt_set_self _ _ _ hlen, nodeAt_append_self]
      rfl
    · rw [if_neg hq]
      simp only [nodeAt_set_self _ _ _ hlen, nodeAt_append_self]
      rfl

theorem child_collision_counts_witness :
    (nodeAt (generateChildToFocal envFree ivC5 0 1 0 sC5A).arena 1).num_of_conflicts =
      (nodeAt sC5A.arena 0).num_of_conflicts + ivC5.nc ∧
    (nodeAt (generateChild envFree 1 ivC5 0 1 sC5B).arena 1).num_of_conflicts =
      (nodeAt sC5B.arena 0).num_of_conflicts +
        ivC5.nc * (max ((nodeAt sC5B.arena 0).timestep + 1) ivC5.low -
                     (nodeAt sC5B.arena 0).timestep) :=
  child_collision_counts envFree 1 ivC5 0 1 0 sC5A sC5B
    (by decide) (by decide) (by decide)

/-- C8 counterexample.  In the mode-A run on `envC8`, the wait child at cell
    `0` (arena index `2`) is generated with `g + h = 5 + 1 = 6`, which
    exceeds `length_max = 2`, yet it is inserted into the FOCAL priority
    queue (it is still queued when the search returns): mode A applies no
    `length_max` prune to wait children. -/
theorem length_max_prune_counterexample :
    2 ∈ (findPath envC8 10).2.focal ∧
    (nodeAt (findPath envC8 10).2.arena 2).getFVal = 6 ∧
    envC8.length_max = 2 := by decide

/-- C8 (amended): in mode B every candidate child (move and wait alike) with
    `g' + h' > length_max` is pruned before touching any queue — the state is
    returned unchanged — and in mode A the move-interval loop stops at an
    interval whose earliest arrival plus the plain heuristic exceeds
    `length_max`, generating nothing from it; mode A wait children are
    inserted without any `length_max` check (see the counterexample). -/
theorem length_max_prune (env : SIPPEnv) (w : ℚ) (iv : SInterval)
    (c next_location next_h_val : Nat) (sA : StateA) (sB : StateB)
    (rest : List SInterval)
    (hB : env.length_max < (mkChildB env iv c next_location sB.arena).g_val +
            (mkChildB env iv c next_location sB.arena).h_val)
    (hA : env.length_max < max ((nodeAt sA.arena c).timestep + 1) iv.low + next_h_val) :
    generateChild env w iv c next_location sB = sB ∧
    moveIntervalLoop env c next_location next_h_val (iv :: rest) sA = sA := by
  constructor
  · unfold generateChild
    rw [if_pos hB]
  · unfold moveIntervalLoop
    rw [if_pos hA]

theorem length_max_prune_witness :
    generateChild envC8 1 ivC5 0 1 sC5B = sC5B ∧
    moveIntervalLoop envC8 0 1 5 [ivC5] sC5A = sC5A :=
  length_max_prune envC8 1 ivC5 0 1 5 sC5A sC5B [] (by decide) (by decide)

/-- C7: mode-A duplicate handling, in `generateChildToFocal` and for virtual
    goal nodes in `findPath`.  When the generated node collides in the hash
    table with a stored node `ex` at index `j`, the stored node's contents
    are replaced iff the new node has a strictly smaller timestep or an equal
    timestep and strictly fewer conflicts (`replacesKey`); on replacement a
    closed node is reopened (pushed back into FOCAL) and an open node keeps
    its FOCAL membership (its handle is updated in place); otherwise the
    state is unchanged.  For the goal-node branch the source asserts that the
    stored node is open (`assert(existing_next->in_openlist)`), which is the
    hypothesis of the last conjunct. -/
theorem duplicate_handling_modeA (env : SIPPEnv) (iv : SInterval)
    (c next_location next_h_val : Nat) (s : StateA) (j : Nat)
    (hj : findKey s.arena (mkChildA env iv c next_location next_h_val s.arena) = some j) :
    (replacesKey (mkChildA env iv c next_location next_h_val s.arena) (nodeAt s.arena j) →
       (generateChildToFocal env iv c next_location next_h_val s).arena =
         s.arena.set j
           ({ mkChildA env iv c next_location next_h_val s.arena with in_openlist := true }) ∧
       ((nodeAt s.arena j).in_openlist = true →
          (generateChildToFocal env iv c next_location next_h_val s).focal = s.focal) ∧
       ((nodeAt s.arena j).in_openlist = false →
          (generateChildToFocal env iv c next_location next_h_val s).focal = s.focal ++ [j])) ∧
    (¬ replacesKey (mkChildA env iv c next_location next_h_val s.arena) (nodeAt s.arena j) →
       generateChildToFocal env iv c next_location next_h_val s = s) ∧
    (∀ c2 fc2 s2 j2,
       (nodeAt s2.arena c2).is_goal = false →
       (nodeAt s2.arena c2).location = env.goal_location →
       (nodeAt s2.arena c2).wait_at_goal = false →
       env.holding_time ≤ (nodeAt s2.arena c2).timestep →
       env.getFutureNumOfCollisions (nodeAt s2.arena c2).location
           (nodeAt s2.arena c2).timestep = fc2 →
       fc2 ≠ 0 →
       findKey s2.arena (mkGoalNode c2 fc2 s2.arena) = some j2 →
       (nodeAt s2.arena j2).in_openlist = true →
       ((replacesKey (mkGoalNode c2 fc2 s2.arena) (nodeAt s2.arena j2) →
           goalBranch env c2 s2 = .inl
             ⟨s2.arena.set j2 ({ mkGoalNode c2 fc2 s2.arena with in_openlist := true }),
              s2.focal, s2.num_expanded, s2.num_generated⟩) ∧
        (¬ replacesKey (mkGoalNode c2 fc2 s2.arena) (nodeAt s2.arena j2) →
           goalBranch env c2 s2 = .inl s2))) := by
  refine ⟨?_, ?_, ?_⟩
  · intro hrep
    simp only [generateChildToFocal, hj]
    rw [if_pos hrep]
    by_cases hop : (nodeAt s.arena j).in_openlist = true
    · rw [if_pos hop]
      refine ⟨?_, fun _ => rfl, fun hcl => absurd hop (by simp [hcl])⟩
      simp [SIPPNode.copyFrom, hop]
    · rw [if_neg hop]
      refine ⟨?_, fun ho => absurd ho hop, fun _ => rfl⟩
      simp [SIPPNode.copyFrom]
  · intro hrep
    simp only [generateChildToFocal, hj]
    rw [if_neg hrep]
  · intro c2 fc2 s2 j2 hng hloc hwait hhold hfc hfc0 hj2 hop
    have hcond : (nodeAt s2.arena c2).location = env.goal_location ∧
        (nodeAt s2.arena c2).wait_at_goal = false ∧
        env.holding_time ≤ (nodeAt s2.arena c2).timestep := ⟨hloc, hwait, hhold⟩
    constructor
    · intro hrep
      simp only [goalBranch, hng, Bool.false_eq_true, if_false, if_pos hcond, hfc,
        if_neg hfc0, hj2]
      rw [if_pos hrep]
      simp [SIPPNode.copyFrom, hop]
    · intro hrep
      simp only [goalBranch, hng, Bool.false_eq_true, if_false, if_pos hcond, hfc,
        if_neg hfc0, hj2]
      rw [if_neg hrep]

theorem duplicate_handling_modeA_witness :
    ((generateChildToFocal envFree ivC7 0 1 0 sC7).arena =
       sC7.arena.set 1 ({ mkChildA envFree ivC7 0 1 0 sC7.arena with in_openlist := true }) ∧
     (generateChildToFocal envFree ivC7 0 1 0 sC7).focal = sC7.focal) ∧
    goalBranch envC10 0 sC7G =
      .inl ⟨sC7G.arena.set 1 ({ mkGoalNode 0 1 sC7G.arena with in_openlist := true }),
            sC7G.focal, sC7G.num_expanded, sC7G.num_generated⟩ := by
  have h := duplicate_handling_modeA envFree ivC7 0 1 0 sC7 1 (by decide)
  refine ⟨⟨(h.1 (by decide)).1, (h.1 (by decide)).2.1 (by decide)⟩, ?_⟩
  have h2 := duplicate_handling_modeA envC10 ivC7 0 1 0 sC7 1 (by decide)
  exact (h2.2.2 0 1 sC7G 1 (by decide) (by decide) (by decide) (by decide)
    (by decide) (by decide) (by decide) (by decide)).1 (by decide)

/-- C4: mode-A goal handling.  When the popped node `c` is not goal-tagged,
    sits at the goal location with `timestep ≥ holding_time` and is not a
    wait-at-goal node: if the future-collision count at `(goal, timestep)` is
    zero, the search returns the path reconstructed from `c` (nothing else is
    expanded); otherwise (for a fresh hash key) a virtual goal node —
    a copy of `c` with `is_goal := true`, parent `c`, and the
    future-collision count added to its conflicts — is appended and enters
    FOCAL, and the expansion of `c` continues.  Whenever a goal-tagged node
    is popped, the search returns the path reconstructed from its parent. -/
theorem goal_detection_modeA (env : SIPPEnv) (c : Nat) (s : StateA)
    (hng : (nodeAt s.arena c).is_goal = false)
    (hloc : (nodeAt s.arena c).location = env.goal_location)
    (hwait : (nodeAt s.arena c).wait_at_goal = false)
    (hhold : env.holding_time ≤ (nodeAt s.arena c).timestep) :
    (env.getFutureNumOfCollisions (nodeAt s.arena c).location
         (nodeAt s.arena c).timestep = 0 →
       findPathExpand env c s =
         .inr (updatePath s.arena (nodeAt s.arena c).timestep c, s)) ∧
    (∀ fc, env.getFutureNumOfCollisions (nodeAt s.arena c).location
         (nodeAt s.arena c).timestep = fc →
       fc ≠ 0 → findKey s.arena (mkGoalNode c fc s.arena) = none →
       goalBranch env c s = .inl
         ({ s with
            arena := s.arena ++ [{ mkGoalNode c fc s.arena with in_openlist := true }]
            focal := s.focal ++ [s.arena.length]
            num_generated := s.num_generated + 1 })) ∧
    (∀ c2 s2, (nodeAt s2.arena c2).is_goal = true →
       findPathExpand env c2 s2 = .inr
         (updatePath s2.arena
            (nodeAt s2.arena ((nodeAt s2.arena c2).parent.getD 0)).timestep
            ((nodeAt s2.arena c2).parent.getD 0), s2)) := by
  have hcond : (nodeAt s.arena c).location = env.goal_location ∧
      (nodeAt s.arena c).wait_at_goal = false ∧
      env.holding_time ≤ (nodeAt s.arena c).timestep := ⟨hloc, hwait, hhold⟩
  refine ⟨?_, ?_, ?_⟩
  · intro hfc
    unfold findPathExpand
    simp only [goalBranch, hng, Bool.false_eq_true, if_false, if_pos hcond, hfc]
    simp
  · intro fc hfc hfc0 hkey
    simp only [goalBranch, hng, Bool.false_eq_true, if_false, if_pos hcond, hfc,
      if_neg hfc0, hkey]
  · intro c2 s2 hg
    unfold findPathExpand
    simp only [goalBranch, hg, if_true]

theorem goal_detection_modeA_witness :
    findPathExpand envFree 0 sC4A = .inr (updatePath sC4A.arena 3 0, sC4A) ∧
    goalBranch envC10 0 sC4B = .inl
      ({ sC4B with
         arena := sC4B.arena ++ [{ mkGoalNode 0 1 sC4B.arena with in_openlist := true }]
         focal := sC4B.focal ++ [1]
         num_generated := 2 }) ∧
    findPathExpand envC10 1 sC4C = .inr (updatePath sC4C.arena 3 0, sC4C) := by
  have h := goal_detection_modeA envFree 0 sC4A (by decide) (by decide) (by decide)
    (by decide)
  have h2 := goal_detection_modeA envC10 0 sC4B (by decide) (by decide) (by decide)
    (by decide)
  exact ⟨h.1 (by decide), h2.2.1 1 (by decide) (by decide) (by decide),
    h2.2.2 1 sC4C (by decide)⟩

/-- C10: evaluation of `findPath` at the failing input `envC10`.  Although
    `holding_time = 5`, the returned path `[0, 6, 7, 1]` settles at the goal
    at timestep `3`: a later duplicate replacement rewrote the virtual goal
    node's parent to a smaller timestep, and the path is reconstructed from
    that updated parent. -/
theorem holding_time_violated_run :
    (findPath envC10 12).1 = [0, 6, 7, 1] ∧
    envC10.holding_time = 5 ∧
    (findPath envC10 12).1.length - 1 < envC10.holding_time ∧
    (mkStart envC10 (envC10.get_first_safe_interval envC10.start_location)).h_val =
      envC10.holding_time := by decide

/-- C6 counterexample.  In the mode-B run on `envC6` (`w = 1`), the third
    popped node (trace index `2`) is at the goal location with
    `timestep = 4 ≥ holding_time = 4` — it satisfies the condition named by
    the claim — yet it is a wait-at-goal node, so the search does not
    terminate there: two further pops happen and the final result is the
    empty path rather than a path reconstructed from that node. -/
theorem modeB_goal_pop_counterexample :
    (findSuboptimalPath envC6 0 1 20).1.1 = [] ∧
    (findSuboptimalPath envC6 0 1 20).2.popTrace.getD 2 (0, 0, true) = (1, 4, true) ∧
    qualPopNoWait envC6
      ((findSuboptimalPath envC6 0 1 20).2.popTrace.getD 2 (0, 0, true)) ∧
    (findSuboptimalPath envC6 0 1 20).2.popTrace.length = 5 := by decide

/-! ## Heap-top membership -/

theorem selectMin_foldl_mem (lt : SIPPNode → SIPPNode → Bool)
    (arena : List SIPPNode) :
    ∀ (is : List Nat) (b : Nat),
      (is.foldl (fun b2 j => if lt (nodeAt arena j) (nodeAt arena b2) then j else b2) b) = b ∨
      (is.foldl (fun b2 j => if lt (nodeAt arena j) (nodeAt arena b2) then j else b2) b) ∈ is
  | [], _ => Or.inl rfl
  | j :: is, b => by
      dsimp only [List.foldl]
      by_cases hcond : lt (nodeAt arena j) (nodeAt arena b) = true
      · rw [if_pos hcond]
        rcases selectMin_foldl_mem lt arena is j with h | h
        · exact Or.inr (by rw [h]; exact List.mem_cons_self _ _)
        · exact Or.inr (List.mem_cons_of_mem _ h)
      · rw [if_neg hcond]
        rcases selectMin_foldl_mem lt arena is b with h | h
        · exact Or.inl h
        · exact Or.inr (List.mem_cons_of_mem _ h)

theorem selectMin_mem (lt : SIPPNode → SIPPNode → Bool) (arena : List SIPPNode)
    (l : List Nat) (c : Nat) (h : selectMin lt arena l = some c) : c ∈ l := by
  cases l with
  | nil => exact Option.noConfusion h
  | cons i is =>
      have h2 : is.foldl
          (fun b2 j => if lt (nodeAt arena j) (nodeAt arena b2) then j else b2) i = c :=
        Option.some.inj h
      rcases selectMin_foldl_mem lt arena is i with h3 | h3
      · rw [h2] at h3
        rw [← h3]
        exact List.mem_cons_self _ _
      · rw [h2] at h3
        exact List.mem_cons_of_mem _ h3

/-! ## Bookkeeping-preservation lemmas for the mode-B loop -/

theorem updateFocalList_parts (w : ℚ) (s : StateB) :
    (updateFocalList w s).arena = s.arena ∧
    (updateFocalList w s).open_list = s.open_list ∧
    (updateFocalList w s).popTrace = s.popTrace ∧
    s.min_f_val ≤ (updateFocalList w s).min_f_val := by
  unfold updateFocalList
  cases h : selectMin openLt s.arena s.open_list with
  | none => exact ⟨rfl, rfl, rfl, le_refl _⟩
  | some hd =>
      dsimp only
      split
      · exact ⟨rfl, rfl, rfl, le_of_lt (by assumption)⟩
      · exact ⟨rfl, rfl, rfl, le_refl _⟩

theorem pushNode_parts (w : ℚ) (j : Nat) (s : StateB) :
    (pushNode w j s).popTrace = s.popTrace ∧
    (pushNode w j s).min_f_val = s.min_f_val := by
  simp only [pushNode]
  split <;> exact ⟨rfl, rfl⟩

theorem generateChild_parts (env : SIPPEnv) (w : ℚ) (iv : SInterval)
    (c next_location : Nat) (s : StateB) :
    (generateChild env w iv c next_location s).popTrace = s.popTrace ∧
    (generateChild env w iv c next_location s).min_f_val = s.min_f_val := by
  by_cases hmax : env.length_max < (mkChildB env iv c next_location s.arena).g_val +
      (mkChildB env iv c next_location s.arena).h_val
  · simp only [generateChild]
    rw [if_pos hmax]
    exact ⟨rfl, rfl⟩
  · cases hk : findKey s.arena (mkChildB env iv c next_location s.arena) with
    | none =>
        simp only [generateChild, hk]
        rw [if_neg hmax]
        exact pushNode_parts _ _ _
    | some j =>
        simp only [generateChild, hk]
        rw [if_neg hmax]
        split
        · split
          · exact pushNode_parts _ _ _
          · split <;> exact ⟨rfl, rfl⟩
        · exact ⟨rfl, rfl⟩

theorem foldl_preserves {α β : Type} (f : β → α → β) (P : β → Prop)
    (h : ∀ b a, P b → P (f b a)) : ∀ (l : List α) (b : β), P b → P (l.foldl f b)
  | [], _, hb => hb
  | a :: l, b, hb => foldl_preserves f P h l (f b a) (h b a hb)

theorem expansion_parts (env : SIPPEnv) (w : ℚ) (c : Nat) (curr : SIPPNode)
    (s : StateB) :
    (((env.getNeighbors curr.location).foldl
        (fun sacc next_location =>
          (env.get_safe_intervals curr.location next_location
              (curr.timestep + 1) (curr.interval.high + 1)).foldl
            (fun sacc2 iv => generateChild env w iv c next_location sacc2)
            sacc)
        s).popTrace = s.popTrace) ∧
    (((env.getNeighbors curr.location).foldl
        (fun sacc next_location =>
          (env.get_safe_intervals curr.location next_location
              (curr.timestep + 1) (curr.interval.high + 1)).foldl
            (fun sacc2 iv => generateChild env w iv c next_location sacc2)
            sacc)
        s).min_f_val = s.min_f_val) := by
  have := foldl_preserves
    (fun sacc next_location =>
      (env.get_safe_intervals curr.location next_location
          (curr.timestep + 1) (curr.interval.high + 1)).foldl
        (fun sacc2 iv => generateChild env w iv c next_location sacc2)
        sacc)
    (fun st => st.popTrace = s.popTrace ∧ st.min_f_val = s.min_f_val)
    (fun b nl hb => by
      refine foldl_preserves
        (fun sacc2 iv => generateChild env w iv c nl sacc2)
        (fun st => st.popTrace = s.popTrace ∧ st.min_f_val = s.min_f_val)
        ?_ _ b hb
      intro b2 iv hb2
      have h2 := generateChild_parts env w iv c nl b2
      exact ⟨h2.1.trans hb2.1, h2.2.trans hb2.2⟩)
    (env.getNeighbors curr.location) s ⟨rfl, rfl⟩
  exact this

theorem getLast?_cons_ne_nil {α : Type} (a : α) (l : List α) (h : l ≠ []) :
    (a :: l).getLast? = l.getLast? := by
  cases l with
  | nil => exact absurd rfl h
  | cons b t => simp [List.getLast?_cons_cons]

theorem expandB_parts (env : SIPPEnv) (w : ℚ) (c : Nat) (s1 : StateB) :
    (expandB env w c s1).popTrace = s1.popTrace ∧
    (expandB env w c s1).min_f_val = s1.min_f_val := by
  unfold expandB
  have h2 := expansion_parts env w c (nodeAt s1.arena c) s1
  cases hf : env.find_safe_interval (nodeAt s1.arena c).location
      (nodeAt s1.arena c).interval.high with
  | some iv =>
      simp only [hf]
      have h3 := generateChild_parts env w iv c (nodeAt s1.arena c).location
        ((env.getNeighbors (nodeAt s1.arena c).location).foldl
          (fun sacc next_location =>
            (env.get_safe_intervals (nodeAt s1.arena c).location next_location
                ((nodeAt s1.arena c).timestep + 1)
                ((nodeAt s1.arena c).interval.high + 1)).foldl
              (fun sacc2 iv2 => generateChild env w iv2 c next_location sacc2)
              sacc)
          s1)
      exact ⟨h3.1.trans h2.1, h3.2.trans h2.2⟩
  | none =>
      simp only [hf]
      exact h2

theorem popB_popTrace (c : Nat) (s : StateB) :
    (popB c s).popTrace = s.popTrace ++
      [((nodeAt s.arena c).location, (nodeAt s.arena c).timestep,
        (nodeAt s.arena c).wait_at_goal)] := rfl

theorem popB_node_fields (c : Nat) (s : StateB) :
    (nodeAt (popB c s).arena c).location = (nodeAt s.arena c).location ∧
    (nodeAt (popB c s).arena c).timestep = (nodeAt s.arena c).timestep ∧
    (nodeAt (popB c s).arena c).wait_at_goal = (nodeAt s.arena c).wait_at_goal ∧
    (nodeAt (popB c s).arena c).is_goal = (nodeAt s.arena c).is_goal ∧
    (nodeAt (popB c s).arena c).parent = (nodeAt s.arena c).parent ∧
    (nodeAt (popB c s).arena c).g_val = (nodeAt s.arena c).g_val ∧
    (nodeAt (popB c s).arena c).h_val = (nodeAt s.arena c).h_val := by
  unfold popB
  dsimp only
  by_cases h : c < s.arena.length
  · rw [nodeAt_set_self _ _ _ h]
    exact ⟨rfl, rfl, rfl, rfl, rfl, rfl, rfl⟩
  · rw [List.set_eq_of_length_le (Nat.le_of_not_lt h)]
    exact ⟨rfl, rfl, rfl, rfl, rfl, rfl, rfl⟩

/-- One unfolding of the mode-B loop. -/
theorem findSubLoop_succ (env : SIPPEnv) (w : ℚ) (fuel : Nat) (s : StateB) :
    findSubLoop env w (fuel + 1) s =
      if s.open_list.isEmpty then ([], s)
      else
        match selectMin focalLt (updateFocalList w s).arena (updateFocalList w s).focal with
        | none => ([], updateFocalList w s)
        | some c =>
            if (nodeAt (popB c (updateFocalList w s)).arena c).location = env.goal_location ∧
               (nodeAt (popB c (updateFocalList w s)).arena c).wait_at_goal = false ∧
               env.holding_time ≤ (nodeAt (popB c (updateFocalList w s)).arena c).timestep then
              (updatePath (popB c (updateFocalList w s)).arena
                 (nodeAt (popB c (updateFocalList w s)).arena c).timestep c,
               popB c (updateFocalList w s))
            else findSubLoop env w fuel (expandB env w c (popB c (updateFocalList w s))) := rfl

/-- The pop-trace of a mode-B loop run: only the final pop can satisfy the
    termination test, and a non-empty result is reconstructed from the node
    recorded by that final pop. -/
theorem findSubLoop_trace_spec (env : SIPPEnv) (w : ℚ) (fuel : Nat) :
    ∀ s : StateB, ∃ tNew,
      (findSubLoop env w fuel s).2.popTrace = s.popTrace ++ tNew ∧
      (∀ k, k + 1 < tNew.length → ¬ qualPop env (tNew.getD k (0, 0, true))) ∧
      ((findSubLoop env w fuel s).1 ≠ [] →
         ∃ e c, tNew.getLast? = some e ∧ qualPop env e ∧
           (nodeAt (findSubLoop env w fuel s).2.arena c).location = e.1 ∧
           (nodeAt (findSubLoop env w fuel s).2.arena c).timestep = e.2.1 ∧
           (findSubLoop env w fuel s).1 =
             updatePath (findSubLoop env w fuel s).2.arena e.2.1 c) := by
  induction fuel with
  | zero =>
      intro s
      exact ⟨[], by simp [findSubLoop], by intro k hk; simp at hk,
        fun h => absurd rfl h⟩
  | succ fuel ih =>
      intro s
      by_cases hoe : s.open_list.isEmpty
      · have heq : findSubLoop env w (fuel + 1) s = ([], s) := by
          rw [findSubLoop_succ, if_pos hoe]
        refine ⟨[], by rw [heq]; simp, by intro k hk; simp at hk, fun h => ?_⟩
        rw [heq] at h
        exact absurd rfl h
      · cases hsel : selectMin focalLt (updateFocalList w s).arena
            (updateFocalList w s).focal with
        | none =>
            have heq : findSubLoop env w (fuel + 1) s = ([], updateFocalList w s) := by
              rw [findSubLoop_succ, if_neg hoe, hsel]
            refine ⟨[], ?_, by intro k hk; simp at hk, fun h => ?_⟩
            · rw [heq]
              simp [(updateFocalList_parts w s).2.2.1]
            · rw [heq] at h
              exact absurd rfl h
        | some c =>
            have hfields := popB_node_fields c (updateFocalList w s)
            by_cases hq :
                (nodeAt (popB c (updateFocalList w s)).arena c).location =
                  env.goal_location ∧
                (nodeAt (popB c (updateFocalList w s)).arena c).wait_at_goal = false ∧
                env.holding_time ≤
                  (nodeAt (popB c (updateFocalList w s)).arena c).timestep
            · have heq : findSubLoop env w (fuel + 1) s =
                  (updatePath (popB c (updateFocalList w s)).arena
                     (nodeAt (popB c (updateFocalList w s)).arena c).timestep c,
                   popB c (updateFocalList w s)) := by
                rw [findSubLoop_succ, if_neg hoe, hsel]
                dsimp only
                rw [if_pos hq]
              refine ⟨[((nodeAt (updateFocalList w s).arena c).location,
                       (nodeAt (updateFocalList w s).arena c).timestep,
                       (nodeAt (updateFocalList w s).arena c).wait_at_goal)],
                      ?_, by intro k hk; simp at hk, fun _ => ?_⟩
              · rw [heq]
                show (popB c (updateFocalList w s)).popTrace = _
                rw [popB_popTrace, (updateFocalList_parts w s).2.2.1]
              · refine ⟨_, c, rfl, ?_, ?_, ?_, ?_⟩
                · exact ⟨by rw [← hfields.1]; exact hq.1,
                         by rw [← hfields.2.2.1]; exact hq.2.1,
                         by rw [← hfields.2.1]; exact hq.2.2⟩
                · rw [heq]
                  exact hfields.1
                · rw [heq]
                  exact hfields.2.1
                · rw [heq]
                  show updatePath _ (nodeAt (popB c (updateFocalList w s)).arena c).timestep c =
                    updatePath _ (nodeAt (updateFocalList w s).arena c).timestep c
                  rw [hfields.2.1]
            · have heq : findSubLoop env w (fuel + 1) s =
                  findSubLoop env w fuel (expandB env w c (popB c (updateFocalList w s))) := by
                rw [findSubLoop_succ, if_neg hoe, hsel]
                dsimp only
                rw [if_neg hq]
              obtain ⟨tNew', h1, h2, h3⟩ := ih (expandB env w c (popB c (updateFocalList w s)))
              refine ⟨((nodeAt (updateFocalList w s).arena c).location,
                       (nodeAt (updateFocalList w s).arena c).timestep,
                       (nodeAt (updateFocalList w s).arena c).wait_at_goal) :: tNew',
                      ?_, ?_, ?_⟩
              · rw [heq, h1,
                  (expandB_parts env w c (popB c (updateFocalList w s))).1,
                  popB_popTrace, (updateFocalList_parts w s).2.2.1]
                simp
              · intro k hk
                cases k with
                | zero =>
                    intro hcontra
                    exact hq ⟨by rw [hfields.1]; exact hcontra.1,
                              by rw [hfields.2.2.1]; exact hcontra.2.1,
                              by rw [hfields.2.1]; exact hcontra.2.2⟩
                | succ k2 =>
                    have hk2 : k2 + 1 < tNew'.length := by
                      simp only [List.length_cons] at hk
                      omega
                    exact h2 k2 hk2
              · intro hne
                rw [heq] at hne
                obtain ⟨e, c2, hlast, hqual, hloc, hts, hpath⟩ := h3 hne
                have htne : tNew' ≠ [] := by
                  intro hnil
                  rw [hnil] at hlast
                  exact Option.noConfusion hlast
                refine ⟨e, c2, ?_, hqual, ?_, ?_, ?_⟩
                · rw [getLast?_cons_ne_nil _ _ htne]
                  exact hlast
                · rw [heq]
                  exact hloc
                · rw [heq]
                  exact hts
                · rw [heq]
                  exact hpath

/-- C6 (amended): in `findSuboptimalPath` (mode B), the search terminates,
    and the returned path is reconstructed, at the first node popped from
    FOCAL whose location equals the goal location, whose timestep is at least
    the holding time, **and which is not a wait-at-goal node**: no pop except
    possibly the last satisfies this test (`qualPop`), and whenever a
    non-empty path is returned, the last pop satisfies it and the path is the
    parent-chain reconstruction from the popped node. -/
theorem modeB_terminates_at_first_qualifying_pop (env : SIPPEnv)
    (lowerbound : Nat) (w : ℚ) (fuel : Nat) :
    (∀ k, k + 1 < (findSuboptimalPath env lowerbound w fuel).2.popTrace.length →
       ¬ qualPop env
         ((findSuboptimalPath env lowerbound w fuel).2.popTrace.getD k (0, 0, true))) ∧
    ((findSuboptimalPath env lowerbound w fuel).1.1 ≠ [] →
       ∃ e c,
         (findSuboptimalPath env lowerbound w fuel).2.popTrace.getLast? = some e ∧
         qualPop env e ∧
         (nodeAt (findSuboptimalPath env lowerbound w fuel).2.arena c).location = e.1 ∧
         (nodeAt (findSuboptimalPath env lowerbound w fuel).2.arena c).timestep = e.2.1 ∧
         (findSuboptimalPath env lowerbound w fuel).1.1 =
           updatePath (findSuboptimalPath env lowerbound w fuel).2.arena e.2.1 c) := by
  by_cases hb : 0 < (env.get_first_safe_interval env.start_location).low
  · constructor
    · intro k hk
      simp only [findSuboptimalPath, if_pos hb] at hk
      simp at hk
    · intro hne
      simp only [findSuboptimalPath, if_pos hb] at hne
      exact absurd rfl hne
  · obtain ⟨tNew, h1, h2, h3⟩ := findSubLoop_trace_spec env w fuel
      { arena := [mkStart env (env.get_first_safe_interval env.start_location)]
        open_list := [0], focal := [0]
        min_f_val := max env.holding_time
          (max (mkStart env (env.get_first_safe_interval env.start_location)).getFVal
            lowerbound)
        num_expanded := 0, num_generated := 1, popTrace := [] }
    have hres : findSuboptimalPath env lowerbound w fuel =
        ((((findSubLoop env w fuel
              { arena := [mkStart env (env.get_first_safe_interval env.start_location)]
                open_list := [0], focal := [0]
                min_f_val := max env.holding_time
                  (max (mkStart env
                    (env.get_first_safe_interval env.start_location)).getFVal lowerbound)
                num_expanded := 0, num_generated := 1, popTrace := [] }).1,
            (findSubLoop env w fuel
              { arena := [mkStart env (env.get_first_safe_interval env.start_location)]
                open_list := [0], focal := [0]
                min_f_val := max env.holding_time
                  (max (mkStart env
                    (env.get_first_safe_interval env.start_location)).getFVal lowerbound)
                num_expanded := 0, num_generated := 1, popTrace := [] }).2.min_f_val),
           (findSubLoop env w fuel
              { arena := [mkStart env (env.get_first_safe_interval env.start_location)]
                open_list := [0], focal := [0]
                min_f_val := max env.holding_time
                  (max (mkStart env
                    (env.get_first_safe_interval env.start_location)).getFVal lowerbound)
                num_expanded := 0, num_generated := 1, popTrace := [] }).2)) := by
      simp only [findSuboptimalPath, if_neg hb]
    rw [List.nil_append] at h1
    rw [hres]
    exact ⟨fun k hk => by rw [h1] at hk ⊢; exact h2 k hk,
      fun hne => by rw [h1]; exact h3 hne⟩

/-! ## Chain-invariant preservation machinery -/

theorem sameKey_iff (a b : SIPPNode) :
    SIPPNode.sameKey a b = true ↔
      a.location = b.location ∧ a.interval.low = b.interval.low ∧
      a.is_goal = b.is_goal := by
  unfold SIPPNode.sameKey
  simp [Bool.and_assoc]

/-- `nodeInv` only depends on the node's and the arena entries' parent,
    timestep, location and goal tag. -/
theorem nodeInv_of_fields (env : SIPPEnv) (arena arena2 : List SIPPNode)
    (n n2 : SIPPNode)
    (hlen : arena2.length = arena.length)
    (hfields : ∀ p, (nodeAt arena2 p).timestep = (nodeAt arena p).timestep ∧
       (nodeAt arena2 p).location = (nodeAt arena p).location ∧
       (nodeAt arena2 p).is_goal = (nodeAt arena p).is_goal)
    (hn : n2.parent = n.parent ∧ n2.timestep = n.timestep ∧
       n2.location = n.location ∧ n2.is_goal = n.is_goal)
    (h : nodeInv env arena n) : nodeInv env arena2 n2 := by
  obtain ⟨hparent, hts, hloc, hgoal⟩ := hn
  constructor
  · intro hp
    rw [hts, hloc, hgoal]
    exact (h.1 (hparent ▸ hp))
  · intro p hp
    obtain ⟨h1, h2, h3, h4⟩ := h.2 p (hparent ▸ hp)
    refine ⟨hlen ▸ h1, (hfields p).2.2 ▸ h2, ?_, ?_⟩
    · intro hg
      rw [hgoal] at hg
      obtain ⟨ha, hb⟩ := h3 hg
      exact ⟨by rw [(hfields p).2.1, hloc]; exact ha, by rw [hloc]; exact hb⟩
    · intro hg
      rw [hgoal] at hg
      obtain ⟨ha, hb⟩ := h4 hg
      exact ⟨by rw [(hfields p).1, hts]; exact ha,
             by rw [hloc, (hfields p).2.1]; exact hb⟩

/-- Replacing the entry at `j` with a node of equal location and goal tag and
    no larger timestep preserves the arena-wide invariant, provided the new
    contents themselves satisfy it. -/
theorem ChainInv_set (env : SIPPEnv) (arena : List SIPPNode) (j : Nat)
    (nd : SIPPNode)
    (hinv : ChainInv env arena)
    (hj : j < arena.length)
    (hloc : nd.location = (nodeAt arena j).location)
    (hgoal : nd.is_goal = (nodeAt arena j).is_goal)
    (hts : nd.timestep ≤ (nodeAt arena j).timestep)
    (hnd : nodeInv env (arena.set j nd) nd) :
    ChainInv env (arena.set j nd) := by
  intro i hi
  rw [List.length_set] at hi
  by_cases hij : i = j
  · rw [hij, nodeAt_set_self _ _ _ hj]
    exact hnd
  · rw [nodeAt_set_ne _ _ _ _ hij]
    have hold := hinv i hi
    constructor
    · exact hold.1
    · intro p hp
      obtain ⟨h1, h2, h3, h4⟩ := hold.2 p hp
      by_cases hpj : p = j
      · subst hpj
        refine ⟨by rw [List.length_set]; exact h1, ?_, ?_, ?_⟩
        · rw [nodeAt_set_self _ _ _ hj, hgoal]
          exact h2
        · intro hg
          obtain ⟨ha, hb⟩ := h3 hg
          exact ⟨by rw [nodeAt_set_self _ _ _ hj, hloc]; exact ha, hb⟩
        · intro hg
          obtain ⟨ha, hb⟩ := h4 hg
          refine ⟨?_, ?_⟩
          · rw [nodeAt_set_self _ _ _ hj]
            exact Nat.lt_of_le_of_lt hts ha
          · rw [nodeAt_set_self _ _ _ hj, hloc]
            exact hb
      · refine ⟨by rw [List.length_set]; exact h1, ?_, ?_, ?_⟩
        · rw [nodeAt_set_ne _ _ _ _ hpj]
          exact h2
        · intro hg
          rw [nodeAt_set_ne _ _ _ _ hpj]
          exact h3 hg
        · intro hg
          rw [nodeAt_set_ne _ _ _ _ hpj]
          exact h4 hg

/-- Updating only the open-list flag of the entry at `c` preserves the
    arena-wide invariant. -/
theorem ChainInv_set_flag (env : SIPPEnv) (arena : List SIPPNode) (c : Nat)
    (b : Bool) (hinv : ChainInv env arena) :
    ChainInv env (arena.set c ({ nodeAt arena c with in_openlist := b })) := by
  by_cases hc : c < arena.length
  · apply ChainInv_set env arena c ({ nodeAt arena c with in_openlist := b })
      hinv hc rfl rfl (le_refl _)
    refine nodeInv_of_fields env arena _ (nodeAt arena c) _ (by simp) ?_
      ⟨rfl, rfl, rfl, rfl⟩ (hinv c hc)
    intro p
    by_cases hpc : p = c
    · subst hpc
      rw [nodeAt_set_self _ _ _ hc]
      exact ⟨rfl, rfl, rfl⟩
    · rw [nodeAt_set_ne _ _ _ _ hpc]
      exact ⟨rfl, rfl, rfl⟩
  · rw [List.set_eq_of_length_le (Nat.le_of_not_lt hc)]
    exact hinv

theorem pathAdj_append (env : SIPPEnv) :
    ∀ (xs ys : Path), pathAdj env xs → pathAdj env ys →
      (∀ a b, xs.getLast? = some a → ys.head? = some b →
         (b = a ∨ b ∈ env.getNeighbors a)) →
      pathAdj env (xs ++ ys)
  | [], ys, _, hys, _ => by simpa using hys
  | [a], ys, _, hys, hlink => by
      cases ys with
      | nil => exact trivial
      | cons b ys2 =>
          exact ⟨hlink a b rfl rfl, hys⟩
  | a :: a2 :: xs2, ys, hxs, hys, hlink => by
      have hrec := pathAdj_append env (a2 :: xs2) ys hxs.2 hys
        (fun x y hx hy => hlink x y (by rw [List.getLast?_cons_cons]; exact hx) hy)
      exact ⟨hxs.1, hrec⟩

theorem head?_replicate_append {α : Type} (k : Nat) (a b : α) :
    (List.replicate k a ++ [b]).head? = some (if k = 0 then b else a) := by
  cases k with
  | zero => rfl
  | succ k2 => simp [List.replicate_succ]

theorem getLast?_replicate_append {α : Type} (k : Nat) (a b : α) :
    (List.replicate k a ++ [b]).getLast? = some b := by
  rw [List.getLast?_append_of_ne_nil _ (by simp)]
  rfl

theorem pathAdj_replicate_append (env : SIPPEnv) (k : Nat) (a b : Nat)
    (h : b = a ∨ b ∈ env.getNeighbors a) :
    pathAdj env (List.replicate k a ++ [b]) := by
  induction k with
  | zero => exact trivial
  | succ k2 ih =>
      show pathAdj env (a :: (List.replicate k2 a ++ [b]))
      cases k2 with
      | zero => exact ⟨h, trivial⟩
      | succ k3 => exact ⟨Or.inl rfl, ih⟩

/-- Correctness of `updatePath` on a chain-invariant arena: the path from a
    valid, non-goal-tagged node of timestep `≤ fuel` has length
    `timestep + 1`, starts at the start location, ends at the node's
    location, and all consecutive entries are equal or adjacent. -/
theorem updatePath_spec (env : SIPPEnv) (arena : List SIPPNode)
    (hinv : ChainInv env arena) :
    ∀ (fuel i : Nat), i < arena.length → (nodeAt arena i).is_goal = false →
      (nodeAt arena i).timestep ≤ fuel →
      (updatePath arena fuel i).length = (nodeAt arena i).timestep + 1 ∧
      (updatePath arena fuel i).head? = some env.start_location ∧
      (updatePath arena fuel i).getLast? = some (nodeAt arena i).location ∧
      pathAdj env (updatePath arena fuel i) := by
  intro fuel
  induction fuel with
  | zero =>
      intro i hi hg ht
      have ht0 : (nodeAt arena i).timestep = 0 := Nat.le_zero.mp ht
      cases hp : (nodeAt arena i).parent with
      | some p =>
          obtain ⟨_, _, _, h4⟩ := (hinv i hi).2 p hp
          obtain ⟨hlt, _⟩ := h4 hg
          omega
      | none =>
          obtain ⟨_, hloc, _⟩ := (hinv i hi).1 hp
          exact ⟨by simp [updatePath, ht0], by simp [updatePath, hloc],
                 by simp [updatePath], trivial⟩
  | succ fuel ih =>
      intro i hi hg ht
      cases hp : (nodeAt arena i).parent with
      | none =>
          obtain ⟨ht0, hloc, _⟩ := (hinv i hi).1 hp
          have hdef : updatePath arena (fuel + 1) i = [(nodeAt arena i).location] := by
            simp only [updatePath, hp]
          rw [hdef]
          exact ⟨by simp [ht0], by simp [hloc], by simp, trivial⟩
      | some p =>
          obtain ⟨hplen, hpg, _, h4⟩ := (hinv i hi).2 p hp
          obtain ⟨hlt, hadj⟩ := h4 hg
          have hple : (nodeAt arena p).timestep ≤ fuel := by omega
          obtain ⟨ihl, ihh, ihlast, ihadj⟩ := ih p hplen hpg hple
          have hdef : updatePath arena (fuel + 1) i =
              updatePath arena fuel p ++
                (List.replicate
                   ((nodeAt arena i).timestep - (nodeAt arena p).timestep - 1)
                   (nodeAt arena p).location ++ [(nodeAt arena i).location]) := by
            simp only [updatePath, hp]
            rw [List.append_assoc]
          refine ⟨?_, ?_, ?_, ?_⟩
          · rw [hdef]
            simp only [List.length_append, List.length_replicate,
              List.length_singleton, ihl]
            omega
          · rw [hdef, List.head?_append, ihh]
            rfl
          · rw [hdef, List.getLast?_append_of_ne_nil _ (by simp),
              getLast?_replicate_append]
          · rw [hdef]
            refine pathAdj_append env _ _ ihadj
              (pathAdj_replicate_append env _ _ _ hadj) ?_
            intro a b ha hb
            rw [ihlast] at ha
            rw [head?_replicate_append] at hb
            have ha2 : a = (nodeAt arena p).location := by
              exact (Option.some_injective _ ha).symm
            subst ha2
            by_cases hk : (nodeAt arena i).timestep - (nodeAt arena p).timestep - 1 = 0
            · rw [if_pos hk] at hb
              have hb2 : b = (nodeAt arena i).location :=
                (Option.some_injective _ hb).symm
              subst hb2
              exact hadj
            · rw [if_neg hk] at hb
              have hb2 : b = (nodeAt arena p).location :=
                (Option.some_injective _ hb).symm
              exact Or.inl hb2

/-- Appending a node that satisfies the invariant (in the extended arena)
    preserves the arena-wide invariant. -/
theorem ChainInv_append (env : SIPPEnv) (arena : List SIPPNode) (nd : SIPPNode)
    (hinv : ChainInv env arena)
    (hnd : nodeInv env (arena ++ [nd]) nd) :
    ChainInv env (arena ++ [nd]) := by
  intro i hi
  rw [List.length_append, List.length_singleton] at hi
  by_cases hil : i < arena.length
  · rw [nodeAt_append_lt _ _ _ hil]
    have hold := hinv i hil
    constructor
    · exact hold.1
    · intro p hp
      obtain ⟨h1, h2, h3, h4⟩ := hold.2 p hp
      have hpl : p < arena.length := h1
      refine ⟨by rw [List.length_append, List.length_singleton]; omega, ?_, ?_, ?_⟩
      · rw [nodeAt_append_lt _ _ _ hpl]
        exact h2
      · intro hg
        rw [nodeAt_append_lt _ _ _ hpl]
        exact h3 hg
      · intro hg
        rw [nodeAt_append_lt _ _ _ hpl]
        exact h4 hg
  · have hieq : i = arena.length := by omega
    rw [hieq, nodeAt_append_self]
    exact hnd

theorem mkChildA_fields (env : SIPPEnv) (iv : SInterval)
    (c next_location next_h_val : Nat) (arena : List SIPPNode) :
    (mkChildA env iv c next_location next_h_val arena).parent = some c ∧
    (mkChildA env iv c next_location next_h_val arena).is_goal = false ∧
    (mkChildA env iv c next_location next_h_val arena).location = next_location ∧
    (mkChildA env iv c next_location next_h_val arena).timestep =
      max ((nodeAt arena c).timestep + 1) iv.low :=
  ⟨rfl, rfl, rfl, rfl⟩

theorem mkGoalNode_fields (c fc : Nat) (arena : List SIPPNode) :
    (mkGoalNode c fc arena).parent = some c ∧
    (mkGoalNode c fc arena).is_goal = true ∧
    (mkGoalNode c fc arena).location = (nodeAt arena c).location ∧
    (mkGoalNode c fc arena).timestep = (nodeAt arena c).timestep :=
  ⟨rfl, rfl, rfl, rfl⟩

/-- `generateChildToFocal` preserves the mode-A state invariant, does not
    shrink the arena, and leaves the popped node `c` untouched, provided the
    generated child's location is the popped node's cell or one of its
    neighbors. -/
theorem generateChildToFocal_preserves (env : SIPPEnv) (iv : SInterval)
    (c next_location next_h_val : Nat) (s : StateA)
    (hc : c < s.arena.length)
    (hng : (nodeAt s.arena c).is_goal = false)
    (hadj : next_location = (nodeAt s.arena c).location ∨
            next_location ∈ env.getNeighbors (nodeAt s.arena c).location)
    (hinv : InvStateA env s) :
    InvStateA env (generateChildToFocal env iv c next_location next_h_val s) ∧
    s.arena.length ≤ (generateChildToFocal env iv c next_location next_h_val s).arena.length ∧
    nodeAt (generateChildToFocal env iv c next_location next_h_val s).arena c =
      nodeAt s.arena c := by
  obtain ⟨hchain, hfv⟩ := hinv
  have htlt : (nodeAt s.arena c).timestep <
      (mkChildA env iv c next_location next_h_val s.arena).timestep := by
    rw [(mkChildA_fields env iv c next_location next_h_val s.arena).2.2.2]
    have := Nat.le_max_left ((nodeAt s.arena c).timestep + 1) iv.low
    omega
  cases hk : findKey s.arena (mkChildA env iv c next_location next_h_val s.arena) with
  | none =>
      have heq : generateChildToFocal env iv c next_location next_h_val s =
          ⟨s.arena ++ [{ mkChildA env iv c next_location next_h_val s.arena with
              in_openlist := true }],
           s.focal ++ [s.arena.length], s.num_expanded, s.num_generated + 1⟩ := by
        simp only [generateChildToFocal, hk]
      rw [heq]
      refine ⟨⟨?_, ?_⟩, ?_, ?_⟩
      · apply ChainInv_append env s.arena _ hchain
        constructor
        · intro hpn
          exact Option.noConfusion hpn
        · intro p hp
          have hpc : p = c := (Option.some.inj hp).symm
          rw [hpc]
          refine ⟨by simp; omega, ?_, ?_, ?_⟩
          · rw [nodeAt_append_lt _ _ _ hc]
            exact hng
          · intro habs
            exact Bool.noConfusion habs
          · intro _
            rw [nodeAt_append_lt _ _ _ hc]
            exact ⟨htlt, hadj⟩
      · intro i hi
        simp only [List.mem_append, List.mem_singleton] at hi
        simp only [List.length_append, List.length_singleton]
        rcases hi with hi | hi
        · have := hfv i hi
          omega
        · omega
      · simp
      · exact nodeAt_append_lt _ _ _ hc
  | some j =>
      obtain ⟨hjlen, hjkey⟩ := findKey_some _ _ _ hk
      obtain ⟨hkloc, hklow, hkgoal⟩ := (sameKey_iff _ _).mp hjkey
      by_cases hrep : replacesKey (mkChildA env iv c next_location next_h_val s.arena)
          (nodeAt s.arena j)
      · have hjc : j ≠ c := by
          intro hjceq
          rw [hjceq] at hrep
          unfold replacesKey at hrep
          omega
        have hts : (mkChildA env iv c next_location next_h_val s.arena).timestep ≤
            (nodeAt s.arena j).timestep := by
          unfold replacesKey at hrep
          omega
        have hsetInv : ∀ b : Bool,
            ChainInv env (s.arena.set j
              ({ mkChildA env iv c next_location next_h_val s.arena with
                 in_openlist := b })) ∧
            nodeAt (s.arena.set j
              ({ mkChildA env iv c next_location next_h_val s.arena with
                 in_openlist := b })) c = nodeAt s.arena c := by
          intro b
          have hcset : nodeAt (s.arena.set j
              ({ mkChildA env iv c next_location next_h_val s.arena with
                 in_openlist := b })) c = nodeAt s.arena c :=
            nodeAt_set_ne _ _ _ _ (fun h => hjc h.symm)
          refine ⟨?_, hcset⟩
          apply ChainInv_set env s.arena j
            ({ mkChildA env iv c next_location next_h_val s.arena with
               in_openlist := b })
            hchain hjlen hkloc.symm hkgoal.symm hts
          constructor
          · intro hpn
            exact Option.noConfusion hpn
          · intro p hp
            have hpc : p = c := (Option.some.inj hp).symm
            rw [hpc]
            refine ⟨by rw [List.length_set]; exact hc, ?_, ?_, ?_⟩
            · rw [hcset]
              exact hng
            · intro habs
              exact Bool.noConfusion habs
            · intro _
              rw [hcset]
              exact ⟨htlt, hadj⟩
        by_cases hop : (nodeAt s.arena j).in_openlist = true
        · have heq : generateChildToFocal env iv c next_location next_h_val s =
              ⟨s.arena.set j ({ mkChildA env iv c next_location next_h_val s.arena with
                  in_openlist := (nodeAt s.arena j).in_openlist }),
               s.focal, s.num_expanded, s.num_generated⟩ := by
            simp only [generateChildToFocal, hk]
            rw [if_pos hrep, if_pos hop]
            rfl
          rw [heq, hop]
          refine ⟨⟨(hsetInv true).1, ?_⟩, by rw [List.length_set], (hsetInv true).2⟩
          intro i hi
          rw [List.length_set]
          exact hfv i hi
        · have heq : generateChildToFocal env iv c next_location next_h_val s =
              ⟨s.arena.set j ({ mkChildA env iv c next_location next_h_val s.arena with
                  in_openlist := true }),
               s.focal ++ [j], s.num_expanded, s.num_generated⟩ := by
            simp only [generateChildToFocal, hk]
            rw [if_pos hrep, if_neg hop]
            rfl
          rw [heq]
          refine ⟨⟨(hsetInv true).1, ?_⟩, by rw [List.length_set], (hsetInv true).2⟩
          intro i hi
          simp only [List.mem_append, List.mem_singleton] at hi
          rw [List.length_set]
          rcases hi with hi | hi
          · exact hfv i hi
          · rw [hi]
            exact hjlen
      · have heq : generateChildToFocal env iv c next_location next_h_val s = s := by
          simp only [generateChildToFocal, hk]
          rw [if_neg hrep]
        rw [heq]
        exact ⟨⟨hchain, hfv⟩, le_refl _, rfl⟩

theorem foldl_preserves_mem {α β : Type} (f : β → α → β) (P : β → Prop) :
    ∀ (l : List α), (∀ b a, a ∈ l → P b → P (f b a)) → ∀ b, P b → P (l.foldl f b)
  | [], _, _, hb => hb
  | a :: l, h, b, hb =>
      foldl_preserves_mem f P l
        (fun b2 a2 ha2 hb2 => h b2 a2 (List.mem_cons_of_mem _ ha2) hb2)
        (f b a) (h b a (List.mem_cons_self _ _) hb)

/-- The goal branch, when it continues the search, preserves the mode-A
    state invariant, does not shrink the arena and leaves node `c`
    untouched. -/
theorem goalBranch_inl_preserves (env : SIPPEnv) (c : Nat) (s s2 : StateA)
    (hc : c < s.arena.length)
    (hinv : InvStateA env s)
    (h : goalBranch env c s = .inl s2) :
    InvStateA env s2 ∧ s.arena.length ≤ s2.arena.length ∧
    nodeAt s2.arena c = nodeAt s.arena c := by
  obtain ⟨hchain, hfv⟩ := hinv
  by_cases hg : (nodeAt s.arena c).is_goal = true
  · simp only [goalBranch] at h
    rw [if_pos hg] at h
    exact Sum.noConfusion h
  · have hgf : (nodeAt s.arena c).is_goal = false := by
      revert hg
      cases (nodeAt s.arena c).is_goal <;> simp
    simp only [goalBranch] at h
    rw [if_neg hg] at h
    by_cases hcond : (nodeAt s.arena c).location = env.goal_location ∧
        (nodeAt s.arena c).wait_at_goal = false ∧
        env.holding_time ≤ (nodeAt s.arena c).timestep
    · rw [if_pos hcond] at h
      by_cases hfc : env.getFutureNumOfCollisions (nodeAt s.arena c).location
          (nodeAt s.arena c).timestep = 0
      · rw [if_pos hfc] at h
        exact Sum.noConfusion h
      · rw [if_neg hfc] at h
        cases hk : findKey s.arena (mkGoalNode c
            (env.getFutureNumOfCollisions (nodeAt s.arena c).location
              (nodeAt s.arena c).timestep) s.arena) with
        | none =>
            simp only [hk] at h
            have hs2 := (Sum.inl.inj h).symm
            rw [hs2]
            refine ⟨⟨?_, ?_⟩, by simp, nodeAt_append_lt _ _ _ hc⟩
            · apply ChainInv_append env s.arena _ hchain
              constructor
              · intro hpn
                exact Option.noConfusion hpn
              · intro p hp
                have hpc : p = c := (Option.some.inj hp).symm
                rw [hpc]
                refine ⟨by simp; omega, ?_, ?_, ?_⟩
                · rw [nodeAt_append_lt _ _ _ hc]
                  exact hgf
                · intro _
                  rw [nodeAt_append_lt _ _ _ hc]
                  exact ⟨rfl, hcond.1⟩
                · intro habs
                  exact Bool.noConfusion habs
            · intro i hi
              simp only [List.mem_append, List.mem_singleton] at hi
              simp only [List.length_append, List.length_singleton]
              rcases hi with hi | hi
              · have := hfv i hi
                omega
              · omega
        | some j =>
            simp only [hk] at h
            obtain ⟨hjlen, hjkey⟩ := findKey_some _ _ _ hk
            obtain ⟨hkloc, hklow, hkgoal⟩ := (sameKey_iff _ _).mp hjkey
            have hjc : j ≠ c := by
              intro hjceq
              rw [hjceq] at hkgoal
              rw [hgf] at hkgoal
              exact Bool.noConfusion hkgoal
            by_cases hrep : replacesKey (mkGoalNode c
                (env.getFutureNumOfCollisions (nodeAt s.arena c).location
                  (nodeAt s.arena c).timestep) s.arena) (nodeAt s.arena j)
            · rw [if_pos hrep] at h
              have hs2 := (Sum.inl.inj h).symm
              rw [hs2]
              have hcset : nodeAt (s.arena.set j
                  (SIPPNode.copyFrom (nodeAt s.arena j)
                    (mkGoalNode c
                      (env.getFutureNumOfCollisions (nodeAt s.arena c).location
                        (nodeAt s.arena c).timestep) s.arena))) c =
                  nodeAt s.arena c :=
                nodeAt_set_ne _ _ _ _ (fun hh => hjc hh.symm)
              refine ⟨⟨?_, ?_⟩, by rw [List.length_set], hcset⟩
              · apply ChainInv_set env s.arena j
                  (SIPPNode.copyFrom (nodeAt s.arena j)
                    (mkGoalNode c
                      (env.getFutureNumOfCollisions (nodeAt s.arena c).location
                        (nodeAt s.arena c).timestep) s.arena))
                  hchain hjlen hkloc.symm hkgoal.symm
                  (by have hcf : (SIPPNode.copyFrom (nodeAt s.arena j)
                        (mkGoalNode c
                          (env.getFutureNumOfCollisions (nodeAt s.arena c).location
                            (nodeAt s.arena c).timestep) s.arena)).timestep =
                        (mkGoalNode c
                          (env.getFutureNumOfCollisions (nodeAt s.arena c).location
                            (nodeAt s.arena c).timestep) s.arena).timestep := rfl
                      unfold replacesKey at hrep
                      have := (mkGoalNode_fields c
                        (env.getFutureNumOfCollisions (nodeAt s.arena c).location
                          (nodeAt s.arena c).timestep) s.arena).2.2.2
                      omega)
                constructor
                · intro hpn
                  exact Option.noConfusion hpn
                · intro p hp
                  have hpc : p = c := (Option.some.inj hp).symm
                  rw [hpc]
                  refine ⟨by rw [List.length_set]; exact hc, ?_, ?_, ?_⟩
                  · rw [hcset]
                    exact hgf
                  · intro _
                    rw [hcset]
                    exact ⟨rfl, hcond.1⟩
                  · intro habs
                    exact Bool.noConfusion habs
              · intro i hi
                rw [List.length_set]
                exact hfv i hi
            · rw [if_neg hrep] at h
              have hs2 := (Sum.inl.inj h).symm
              rw [hs2]
              exact ⟨⟨hchain, hfv⟩, le_refl _, rfl⟩
    · rw [if_neg hcond] at h
      have hs2 := (Sum.inl.inj h).symm
      rw [hs2]
      exact ⟨⟨hchain, hfv⟩, le_refl _, rfl⟩

theorem moveIntervalLoop_preserves (env : SIPPEnv)
    (c next_location next_h_val : Nat) :
    ∀ (ivs : List SInterval) (s : StateA),
      c < s.arena.length →
      (nodeAt s.arena c).is_goal = false →
      (next_location = (nodeAt s.arena c).location ∨
       next_location ∈ env.getNeighbors (nodeAt s.arena c).location) →
      InvStateA env s →
      InvStateA env (moveIntervalLoop env c next_location next_h_val ivs s) ∧
      s.arena.length ≤
        (moveIntervalLoop env c next_location next_h_val ivs s).arena.length ∧
      nodeAt (moveIntervalLoop env c next_location next_h_val ivs s).arena c =
        nodeAt s.arena c
  | [], s, _, _, _, hinv => ⟨hinv, le_refl _, rfl⟩
  | iv :: rest, s, hc, hng, hadj, hinv => by
      by_cases hlm : env.length_max <
          max ((nodeAt s.arena c).timestep + 1) iv.low + next_h_val
      · have heq : moveIntervalLoop env c next_location next_h_val (iv :: rest) s = s := by
          simp only [moveIntervalLoop]
          rw [if_pos hlm]
        rw [heq]
        exact ⟨hinv, le_refl _, rfl⟩
      · have heq : moveIntervalLoop env c next_location next_h_val (iv :: rest) s =
            moveIntervalLoop env c next_location next_h_val rest
              (generateChildToFocal env iv c next_location next_h_val s) := by
          simp only [moveIntervalLoop]
          rw [if_neg hlm]
        obtain ⟨hinv2, hlen2, hkeep⟩ :=
          generateChildToFocal_preserves env iv c next_location next_h_val s hc hng hadj
            hinv
        obtain ⟨hinv3, hlen3, hkeep3⟩ :=
          moveIntervalLoop_preserves env c next_location next_h_val rest _
            (Nat.lt_of_lt_of_le hc hlen2) (by rw [hkeep]; exact hng)
            (by rw [hkeep]; exact hadj) hinv2
        rw [heq]
        exact ⟨hinv3, le_trans hlen2 hlen3, by rw [hkeep3, hkeep]⟩

theorem moveExpansions_preserves (env : SIPPEnv) (c : Nat) (s : StateA)
    (hc : c < s.arena.length)
    (hng : (nodeAt s.arena c).is_goal = false)
    (hinv : InvStateA env s) :
    InvStateA env (moveExpansions env c s) ∧
    s.arena.length ≤ (moveExpansions env c s).arena.length ∧
    nodeAt (moveExpansions env c s).arena c = nodeAt s.arena c := by
  unfold moveExpansions
  refine foldl_preserves_mem _
    (fun st => InvStateA env st ∧ s.arena.length ≤ st.arena.length ∧
      nodeAt st.arena c = nodeAt s.arena c)
    (env.getNeighbors (nodeAt s.arena c).location) ?_ s ⟨hinv, le_refl _, rfl⟩
  intro b nl hmem hb
  obtain ⟨hbinv, hblen, hbkeep⟩ := hb
  obtain ⟨h1, h2, h3⟩ := moveIntervalLoop_preserves env c nl
    (env.my_heuristic nl)
    (env.get_safe_intervals (nodeAt s.arena c).location nl
      ((nodeAt s.arena c).timestep + 1) ((nodeAt s.arena c).interval.high + 1))
    b (Nat.lt_of_lt_of_le hc hblen) (by rw [hbkeep]; exact hng)
    (by rw [hbkeep]; exact Or.inr hmem) hbinv
  exact ⟨h1, le_trans hblen h2, by rw [h3, hbkeep]⟩

theorem waitExpansion_preserves (env : SIPPEnv) (c : Nat) (s : StateA)
    (hc : c < s.arena.length)
    (hng : (nodeAt s.arena c).is_goal = false)
    (hinv : InvStateA env s) :
    InvStateA env (waitExpansion env c s) ∧
    s.arena.length ≤ (waitExpansion env c s).arena.length ∧
    nodeAt (waitExpansion env c s).arena c = nodeAt s.arena c := by
  unfold waitExpansion
  cases hf : env.find_safe_interval (nodeAt s.arena c).location
      (nodeAt s.arena c).interval.high with
  | some iv =>
      simp only [hf]
      exact generateChildToFocal_preserves env iv c (nodeAt s.arena c).location
        (nodeAt s.arena c).h_val s hc hng (Or.inl rfl) hinv
  | none =>
      simp only [hf]
      exact ⟨hinv, le_refl _, trivial⟩

/-- Case analysis of one expansion of the mode-A loop body: either the search
    continues with the invariant preserved, or it returns the path
    reconstructed from a valid non-goal-tagged node at the goal location. -/
theorem findPathExpand_cases (env : SIPPEnv) (c : Nat) (s : StateA)
    (hc : c < s.arena.length) (hinv : InvStateA env s) :
    (∃ s2, findPathExpand env c s = .inl s2 ∧ InvStateA env s2 ∧
       s.arena.length ≤ s2.arena.length) ∨
    (∃ p, findPathExpand env c s =
        .inr (updatePath s.arena (nodeAt s.arena p).timestep p, s) ∧
       p < s.arena.length ∧ (nodeAt s.arena p).is_goal = false ∧
       (nodeAt s.arena p).location = env.goal_location) := by
  cases hgb : goalBranch env c s with
  | inr done =>
      -- the branch returned: identify the reconstruction node
      right
      by_cases hg : (nodeAt s.arena c).is_goal = true
      · -- popped node is goal-tagged: reconstruct from its parent
        cases hp : (nodeAt s.arena c).parent with
        | none =>
            obtain ⟨_, _, hng⟩ := (hinv.1 c hc).1 hp
            rw [hng] at hg
            exact Bool.noConfusion hg
        | some p =>
            obtain ⟨hplen, hpg, h3, _⟩ := (hinv.1 c hc).2 p hp
            obtain ⟨hploc, hlocg⟩ := h3 hg
            have hdone : done = (updatePath s.arena (nodeAt s.arena p).timestep p, s) := by
              simp only [goalBranch] at hgb
              rw [if_pos hg] at hgb
              have := Sum.inr.inj hgb
              rw [← this, hp]
              rfl
            refine ⟨p, ?_, hplen, hpg, by rw [hploc, hlocg]⟩
            unfold findPathExpand
            rw [hgb, hdone]
      · -- direct termination at the popped node
        have hgf : (nodeAt s.arena c).is_goal = false := by
          revert hg
          cases (nodeAt s.arena c).is_goal <;> simp
        simp only [goalBranch] at hgb
        rw [if_neg hg] at hgb
        by_cases hcond : (nodeAt s.arena c).location = env.goal_location ∧
            (nodeAt s.arena c).wait_at_goal = false ∧
            env.holding_time ≤ (nodeAt s.arena c).timestep
        · rw [if_pos hcond] at hgb
          by_cases hfc : env.getFutureNumOfCollisions (nodeAt s.arena c).location
              (nodeAt s.arena c).timestep = 0
          · rw [if_pos hfc] at hgb
            have hdone := (Sum.inr.inj hgb).symm
            refine ⟨c, ?_, hc, hgf, hcond.1⟩
            unfold findPathExpand
            rw [show goalBranch env c s = .inr done from by
              simp only [goalBranch]
              rw [if_neg hg, if_pos hcond, if_pos hfc]
              rw [hdone]]
            rw [hdone]
          · rw [if_neg hfc] at hgb
            cases hk : findKey s.arena (mkGoalNode c
                (env.getFutureNumOfCollisions (nodeAt s.arena c).location
                  (nodeAt s.arena c).timestep) s.arena) with
            | none =>
                simp only [hk] at hgb
                exact Sum.noConfusion hgb
            | some j =>
                simp only [hk] at hgb
                by_cases hrep : replacesKey (mkGoalNode c
                    (env.getFutureNumOfCollisions (nodeAt s.arena c).location
                      (nodeAt s.arena c).timestep) s.arena) (nodeAt s.arena j)
                · rw [if_pos hrep] at hgb
                  exact Sum.noConfusion hgb
                · rw [if_neg hrep] at hgb
                  exact Sum.noConfusion hgb
        · rw [if_neg hcond] at hgb
          exact Sum.noConfusion hgb
  | inl s1 =>
      left
      have hgf : (nodeAt s.arena c).is_goal = false := by
        by_cases hg : (nodeAt s.arena c).is_goal = true
        · exfalso
          simp only [goalBranch] at hgb
          rw [if_pos hg] at hgb
          exact Sum.noConfusion hgb
        · revert hg
          cases (nodeAt s.arena c).is_goal <;> simp
      obtain ⟨hinv1, hlen1, hkeep1⟩ := goalBranch_inl_preserves env c s s1 hc hinv hgb
      have hc1 : c < s1.arena.length := Nat.lt_of_lt_of_le hc hlen1
      obtain ⟨hinv2, hlen2, hkeep2⟩ := moveExpansions_preserves env c s1 hc1
        (by rw [hkeep1]; exact hgf) hinv1
      obtain ⟨hinv3, hlen3, _⟩ := waitExpansion_preserves env c
        (moveExpansions env c s1) (Nat.lt_of_lt_of_le hc1 hlen2)
        (by rw [hkeep2, hkeep1]; exact hgf) hinv2
      refine ⟨waitExpansion env c (moveExpansions env c s1), ?_, hinv3, ?_⟩
      · unfold findPathExpand
        rw [hgb]
      · exact le_trans hlen1 (le_trans hlen2 hlen3)

theorem popA_preserves (env : SIPPEnv) (c : Nat) (s : StateA)
    (hinv : InvStateA env s) :
    InvStateA env (popA c s) ∧ (popA c s).arena.length = s.arena.length := by
  unfold popA
  refine ⟨⟨ChainInv_set_flag env s.arena c false hinv.1, ?_⟩, ?_⟩
  · intro i hi
    show i < (s.arena.set c _).length
    rw [List.length_set]
    exact hinv.2 i (List.mem_of_mem_filter hi)
  · exact List.length_set s.arena c _

/-- The mode-A loop either returns the empty path (fuel ran out or FOCAL
    emptied) or the parent-chain reconstruction from a valid non-goal-tagged
    node at the goal location, over a chain-invariant final arena. -/
theorem findPathLoop_reconstructs (env : SIPPEnv) :
    ∀ (fuel : Nat) (s : StateA), InvStateA env s →
      (findPathLoop env fuel s).1 = [] ∨
      ∃ p, p < (findPathLoop env fuel s).2.arena.length ∧
        (findPathLoop env fuel s).1 =
          updatePath (findPathLoop env fuel s).2.arena
            (nodeAt (findPathLoop env fuel s).2.arena p).timestep p ∧
        (nodeAt (findPathLoop env fuel s).2.arena p).is_goal = false ∧
        (nodeAt (findPathLoop env fuel s).2.arena p).location =
          env.goal_location ∧
        ChainInv env (findPathLoop env fuel s).2.arena
  | 0, s, _ => Or.inl rfl
  | fuel + 1, s, hinv => by
      cases hsel : selectMin focalLt s.arena s.focal with
      | none =>
          left
          simp only [findPathLoop, hsel]
      | some c =>
          have hc : c < s.arena.length :=
            hinv.2 c (selectMin_mem focalLt s.arena s.focal c hsel)
          obtain ⟨hpinv, hplen⟩ := popA_preserves env c s hinv
          have hc2 : c < (popA c s).arena.length := by rw [hplen]; exact hc
          rcases findPathExpand_cases env c (popA c s) hc2 hpinv with
            ⟨s2, heq, hinv2, _⟩ | ⟨p, heq, hp, hpg, hploc⟩
          · have hres : findPathLoop env (fuel + 1) s =
                findPathLoop env fuel s2 := by
              simp only [findPathLoop, hsel, heq]
            rw [hres]
            exact findPathLoop_reconstructs env fuel s2 hinv2
          · have hres : findPathLoop env (fuel + 1) s =
                (updatePath (popA c s).arena
                  (nodeAt (popA c s).arena p).timestep p, popA c s) := by
              simp only [findPathLoop, hsel, heq]
            right
            rw [hres]
            exact ⟨p, hp, rfl, hpg, hploc, hpinv.1⟩

/-- C1: every non-empty path returned by `SIPP::findPath` is the parent-chain
    reconstruction `updatePath` from a terminal arena node of some timestep
    `T`: the path has length `T + 1`, its first entry is the start location,
    its last entry is the goal location, and every pair of consecutive
    entries is equal or grid-adjacent. -/
theorem modeA_path_reconstruction (env : SIPPEnv) (fuel : Nat)
    (h : (findPath env fuel).1 ≠ []) :
    ∃ p, p < (findPath env fuel).2.arena.length ∧
      (findPath env fuel).1 =
        updatePath (findPath env fuel).2.arena
          (nodeAt (findPath env fuel).2.arena p).timestep p ∧
      (findPath env fuel).1.length =
        (nodeAt (findPath env fuel).2.arena p).timestep + 1 ∧
      (findPath env fuel).1.head? = some env.start_location ∧
      (findPath env fuel).1.getLast? = some env.goal_location ∧
      pathAdj env (findPath env fuel).1 := by
  by_cases hlow : 0 < (env.get_first_safe_interval env.start_location).low
  · exfalso
    apply h
    show (findPath env fuel).1 = []
    simp only [findPath]
    rw [if_pos hlow]
  · have hfp : findPath env fuel =
        findPathLoop env fuel
          ⟨[mkStart env (env.get_first_safe_interval env.start_location)],
            [0], 0, 1⟩ := by
      simp only [findPath]
      rw [if_neg hlow]
    have hinv0 : InvStateA env
        ⟨[mkStart env (env.get_first_safe_interval env.start_location)],
          [0], 0, 1⟩ := by
      constructor
      · intro i hi
        have hi0 : i = 0 := by
          simp only [List.length_singleton] at hi
          omega
        subst hi0
        constructor
        · intro _
          exact ⟨rfl, rfl, rfl⟩
        · intro p hp
          exact Option.noConfusion hp
      · intro i hi
        have hi0 : i = 0 := by simpa using hi
        subst hi0
        show 0 < ([mkStart env _] : List SIPPNode).length
        simp
    rw [hfp] at h ⊢
    rcases findPathLoop_reconstructs env fuel _ hinv0 with
      hempty | ⟨p, hp, hequ, hpg, hploc, hchain⟩
    · exact absurd hempty h
    · obtain ⟨hlen, hhead, hlast, hadj⟩ := updatePath_spec env _ hchain
        (nodeAt (findPathLoop env fuel
          ⟨[mkStart env (env.get_first_safe_interval env.start_location)],
            [0], 0, 1⟩).2.arena p).timestep p hp hpg (le_refl _)
      refine ⟨p, hp, hequ, ?_, ?_, ?_, ?_⟩
      · rw [hequ]
        exact hlen
      · rw [hequ]
        exact hhead
      · rw [hequ, hlast, hploc]
      · rw [hequ]
        exact hadj

theorem modeA_path_reconstruction_witness :
    (findPath envFree 10).1 ≠ [] ∧
    ∃ p, p < (findPath envFree 10).2.arena.length ∧
      (findPath envFree 10).1 =
        updatePath (findPath envFree 10).2.arena
          (nodeAt (findPath envFree 10).2.arena p).timestep p ∧
      (findPath envFree 10).1.length =
        (nodeAt (findPath envFree 10).2.arena p).timestep + 1 ∧
      (findPath envFree 10).1.head? = some envFree.start_location ∧
      (findPath envFree 10).1.getLast? = some envFree.goal_location ∧
      pathAdj envFree (findPath envFree 10).1 :=
  ⟨by decide, modeA_path_reconstruction envFree 10 (by decide)⟩

theorem modeB_terminates_at_first_qualifying_pop_witness :
    ¬ qualPop envFree
        ((findSuboptimalPath envFree 0 1 10).2.popTrace.getD 0 (0, 0, true)) ∧
    (findSuboptimalPath envFree 0 1 10).1.1 = [0, 1] :=
  ⟨(modeB_terminates_at_first_qualifying_pop envFree 0 1 10).1 0 (by decide),
   by decide⟩

/-! ## The mode-B invariant development (towards the suboptimality sandwich) -/

/-- Setting only the `in_openlist` flag of the entry at `j` changes no other
    field of any entry. -/
theorem nodeAt_set_flag_fields (arena : List SIPPNode) (j : Nat) (b : Bool)
    (i : Nat) :
    (nodeAt (arena.set j ({ nodeAt arena j with in_openlist := b })) i).location =
      (nodeAt arena i).location ∧
    (nodeAt (arena.set j ({ nodeAt arena j with in_openlist := b })) i).timestep =
      (nodeAt arena i).timestep ∧
    (nodeAt (arena.set j ({ nodeAt arena j with in_openlist := b })) i).g_val =
      (nodeAt arena i).g_val ∧
    (nodeAt (arena.set j ({ nodeAt arena j with in_openlist := b })) i).h_val =
      (nodeAt arena i).h_val ∧
    (nodeAt (arena.set j ({ nodeAt arena j with in_openlist := b })) i).getFVal =
      (nodeAt arena i).getFVal ∧
    (nodeAt (arena.set j ({ nodeAt arena j with in_openlist := b })) i).parent =
      (nodeAt arena i).parent ∧
    (nodeAt (arena.set j ({ nodeAt arena j with in_openlist := b })) i).is_goal =
      (nodeAt arena i).is_goal ∧
    (nodeAt (arena.set j ({ nodeAt arena j with in_openlist := b })) i).wait_at_goal =
      (nodeAt arena i).wait_at_goal := by
  by_cases hij : i = j
  · subst hij
    by_cases hl : i < arena.length
    · rw [nodeAt_set_self _ _ _ hl]
      exact ⟨rfl, rfl, rfl, rfl, rfl, rfl, rfl, rfl⟩
    · rw [List.set_eq_of_length_le (Nat.le_of_not_lt hl)]
      exact ⟨rfl, rfl, rfl, rfl, rfl, rfl, rfl, rfl⟩
  · rw [nodeAt_set_ne _ _ _ _ hij]
    exact ⟨rfl, rfl, rfl, rfl, rfl, rfl, rfl, rfl⟩

theorem openLt_true_le (a b : SIPPNode) (h : openLt a b = true) :
    a.getFVal ≤ b.getFVal := by
  simp only [openLt, Bool.or_eq_true, Bool.and_eq_true, decide_eq_true_eq,
    beq_iff_eq] at h
  rcases h with h | ⟨h, _⟩
  · exact le_of_lt h
  · exact le_of_eq h

theorem openLt_false_le (a b : SIPPNode) (h : openLt a b = false) :
    b.getFVal ≤ a.getFVal := by
  by_contra hcon
  have hlt : a.getFVal < b.getFVal := Nat.lt_of_not_le hcon
  have h2 : openLt a b = true := by
    simp only [openLt, Bool.or_eq_true, decide_eq_true_eq]
    exact Or.inl hlt
  rw [h] at h2
  exact Bool.noConfusion h2

/-- The fold underlying `selectMin` under the OPEN order returns an index of
    minimal `f` among the initial value and the processed list. -/
theorem selectMin_foldl_min (arena : List SIPPNode) :
    ∀ (is : List Nat) (i : Nat),
      (nodeAt arena (is.foldl
        (fun b j => if openLt (nodeAt arena j) (nodeAt arena b) then j else b)
        i)).getFVal ≤ (nodeAt arena i).getFVal ∧
      ∀ j ∈ is, (nodeAt arena (is.foldl
        (fun b j => if openLt (nodeAt arena j) (nodeAt arena b) then j else b)
        i)).getFVal ≤ (nodeAt arena j).getFVal
  | [], i => ⟨le_refl _, fun _ h => absurd h (List.not_mem_nil _)⟩
  | j :: is, i => by
      simp only [List.foldl_cons]
      by_cases hlt : openLt (nodeAt arena j) (nodeAt arena i) = true
      · rw [if_pos hlt]
        obtain ⟨h1, h2⟩ := selectMin_foldl_min arena is j
        have hji := openLt_true_le _ _ hlt
        refine ⟨le_trans h1 hji, ?_⟩
        intro j2 hj2
        rcases List.mem_cons.mp hj2 with hj2 | hj2
        · rw [hj2]
          exact h1
        · exact h2 j2 hj2
      · rw [if_neg hlt]
        obtain ⟨h1, h2⟩ := selectMin_foldl_min arena is i
        have hij := openLt_false_le _ _ (Bool.eq_false_iff.mpr hlt)
        refine ⟨h1, ?_⟩
        intro j2 hj2
        rcases List.mem_cons.mp hj2 with hj2 | hj2
        · rw [hj2]
          exact le_trans h1 hij
        · exact h2 j2 hj2

/-- `open_list.top()` has minimal `f` among the open nodes. -/
theorem selectMin_openLt_min (arena : List SIPPNode) (l : List Nat) (hd : Nat)
    (h : selectMin openLt arena l = some hd) :
    ∀ i ∈ l, (nodeAt arena hd).getFVal ≤ (nodeAt arena i).getFVal := by
  cases l with
  | nil => exact Option.noConfusion h
  | cons i is =>
      have h2 := Option.some.inj h
      intro i2 hi2
      obtain ⟨h1, hall⟩ := selectMin_foldl_min arena is i
      rcases List.mem_cons.mp hi2 with hi2 | hi2
      · rw [hi2, ← h2]
        exact h1
      · rw [← h2]
        exact hall i2 hi2

/-- Field equations of the mode-B child, including the path-max identity
    `f' = max (t' + h(next)) f_curr`. -/
theorem mkChildB_fields2 (env : SIPPEnv) (iv : SInterval) (c nl : Nat)
    (arena : List SIPPNode) :
    (mkChildB env iv c nl arena).parent = some c ∧
    (mkChildB env iv c nl arena).is_goal = false ∧
    (mkChildB env iv c nl arena).location = nl ∧
    (mkChildB env iv c nl arena).timestep =
      max ((nodeAt arena c).timestep + 1) iv.low ∧
    (mkChildB env iv c nl arena).g_val = (mkChildB env iv c nl arena).timestep ∧
    (mkChildB env iv c nl arena).getFVal =
      max ((mkChildB env iv c nl arena).timestep + env.my_heuristic nl)
        (nodeAt arena c).getFVal := by
  refine ⟨rfl, rfl, rfl, rfl, rfl, ?_⟩
  show max ((nodeAt arena c).timestep + 1) iv.low +
      max (env.my_heuristic nl)
        ((nodeAt arena c).getFVal - max ((nodeAt arena c).timestep + 1) iv.low) =
    max (max ((nodeAt arena c).timestep + 1) iv.low + env.my_heuristic nl)
      (nodeAt arena c).getFVal
  omega

/-- Appending an open index with a qualifying `g` to FOCAL preserves the
    mode-B invariant. -/
theorem focalAppend_invB (env : SIPPEnv) (w : ℚ) (L : Nat) (j : Nat)
    (s : StateB) (hinv : InvStateB env w L s)
    (hjo : j ∈ s.open_list)
    (hg : ((nodeAt s.arena j).g_val : ℚ) ≤ w * s.min_f_val) :
    InvStateB env w L { s with focal := s.focal ++ [j] } := by
  obtain ⟨h1, h2, h3, h4, h5, h6, h7, h8, h9⟩ := hinv
  refine ⟨h1, h2, h3, h4, h5, ?_, h7, h8, ?_⟩
  · intro i hi
    rcases List.mem_append.mp hi with hi | hi
    · exact h6 i hi
    · rw [List.mem_singleton.mp hi]
      exact hjo
  · intro i hi
    rcases List.mem_append.mp hi with hi | hi
    · exact h9 i hi
    · rw [List.mem_singleton.mp hi]
      exact hg

/-- `SIPP::pushNode` preserves the mode-B invariant when the pushed node's
    `f` keeps `min_f_val` below `max L f`. -/
theorem pushNode_invB (env : SIPPEnv) (w : ℚ) (L : Nat) (j : Nat) (s : StateB)
    (hj : j < s.arena.length)
    (hLB : s.min_f_val ≤ max L (nodeAt s.arena j).getFVal)
    (hinv : InvStateB env w L s) :
    InvStateB env w L (pushNode w j s) ∧
    (pushNode w j s).arena.length = s.arena.length ∧
    (pushNode w j s).min_f_val = s.min_f_val ∧
    (∀ i, i ≠ j → nodeAt (pushNode w j s).arena i = nodeAt s.arena i) := by
  obtain ⟨hchain, hng, hgt, hf, hob, hfo, hflag, hlb, hfg⟩ := hinv
  have harena : (pushNode w j s).arena =
      s.arena.set j ({ nodeAt s.arena j with in_openlist := true }) := by
    simp only [pushNode]
    split <;> rfl
  have hopn : (pushNode w j s).open_list = s.open_list ++ [j] := by
    simp only [pushNode]
    split <;> rfl
  have hmin : (pushNode w j s).min_f_val = s.min_f_val := by
    simp only [pushNode]
    split <;> rfl
  have hfcl : (pushNode w j s).focal = s.focal ∨
      ((pushNode w j s).focal = s.focal ++ [j] ∧
       ((nodeAt s.arena j).getFVal : ℚ) ≤ w * s.min_f_val) := by
    simp only [pushNode]
    split
    · rename_i hq
      right
      refine ⟨rfl, ?_⟩
      have hq2 := (leMulQ_iff w _ _).mp hq
      rwa [(nodeAt_set_flag_fields s.arena j true j).2.2.2.2.1] at hq2
    · left
      rfl
  refine ⟨⟨?_, ?_, ?_, ?_, ?_, ?_, ?_, ?_, ?_⟩,
    by rw [harena, List.length_set], hmin, ?_⟩
  · rw [harena]
    exact ChainInv_set_flag env s.arena j true hchain
  · intro i hi
    rw [harena, List.length_set] at hi
    rw [harena, (nodeAt_set_flag_fields s.arena j true i).2.2.2.2.2.2.1]
    exact hng i hi
  · intro i hi
    rw [harena, List.length_set] at hi
    rw [harena, (nodeAt_set_flag_fields s.arena j true i).2.2.1,
        (nodeAt_set_flag_fields s.arena j true i).2.1]
    exact hgt i hi
  · intro i hi
    rw [harena, List.length_set] at hi
    rw [harena, (nodeAt_set_flag_fields s.arena j true i).2.2.2.2.1,
        (nodeAt_set_flag_fields s.arena j true i).2.1,
        (nodeAt_set_flag_fields s.arena j true i).1]
    exact hf i hi
  · intro i hi
    rw [hopn] at hi
    rw [harena, List.length_set]
    rcases List.mem_append.mp hi with hi | hi
    · exact hob i hi
    · rw [List.mem_singleton.mp hi]
      exact hj
  · intro i hi
    rw [hopn]
    rcases hfcl with hfc2 | ⟨hfc2, _⟩ <;> rw [hfc2] at hi
    · exact List.mem_append_left _ (hfo i hi)
    · rcases List.mem_append.mp hi with hi | hi
      · exact List.mem_append_left _ (hfo i hi)
      · exact List.mem_append_right _ hi
  · intro i hi
    rw [harena, List.length_set] at hi
    rw [harena, hopn]
    by_cases hij : i = j
    · subst hij
      constructor
      · intro _
        exact List.mem_append_right _ (List.mem_singleton_self _)
      · intro _
        rw [nodeAt_set_self _ _ _ hj]
    · rw [nodeAt_set_ne _ _ _ _ hij]
      rw [hflag i hi]
      constructor
      · intro h2
        exact List.mem_append_left _ h2
      · intro h2
        rcases List.mem_append.mp h2 with h2 | h2
        · exact h2
        · exact absurd (List.mem_singleton.mp h2) hij
  · intro i hi
    rw [hopn] at hi
    rw [harena, hmin, (nodeAt_set_flag_fields s.arena j true i).2.2.2.2.1]
    rcases List.mem_append.mp hi with hi | hi
    · exact hlb i hi
    · rw [List.mem_singleton.mp hi]
      exact hLB
  · intro i hi
    rw [harena, hmin, (nodeAt_set_flag_fields s.arena j true i).2.2.1]
    rcases hfcl with hfc2 | ⟨hfc2, hq⟩ <;> rw [hfc2] at hi
    · exact hfg i hi
    · rcases List.mem_append.mp hi with hi | hi
      · exact hfg i hi
      · rw [List.mem_singleton.mp hi]
        refine le_trans ?_ hq
        have hgle : (nodeAt s.arena j).g_val ≤ (nodeAt s.arena j).getFVal :=
          Nat.le_add_right _ _
        exact_mod_cast hgle
  · intro i hij
    rw [harena]
    exact nodeAt_set_ne _ _ _ _ hij

/-- Appending a closed node that satisfies the per-node invariants preserves
    the mode-B invariant (the node is not yet in any queue). -/
theorem arenaAppend_invB (env : SIPPEnv) (w : ℚ) (L : Nat) (s : StateB)
    (nd : SIPPNode) (hinv : InvStateB env w L s)
    (hndinv : nodeInv env (s.arena ++ [nd]) nd)
    (hndgoal : nd.is_goal = false)
    (hndg : nd.g_val = nd.timestep)
    (hndf : ∀ q : Path, pathAdj env q → q.head? = some nd.location →
       q.getLast? = some env.goal_location →
       nd.getFVal ≤ max (nd.timestep + (q.length - 1)) env.holding_time)
    (hndflag : nd.in_openlist = false) :
    InvStateB env w L { s with arena := s.arena ++ [nd] } := by
  obtain ⟨h1, h2, h3, h4, h5, h6, h7, h8, h9⟩ := hinv
  refine ⟨?_, ?_, ?_, ?_, ?_, h6, ?_, ?_, ?_⟩
  · exact ChainInv_append env s.arena nd h1 hndinv
  · intro i hi
    have hi2 : i < (s.arena ++ [nd]).length := hi
    rw [List.length_append, List.length_singleton] at hi2
    show (nodeAt (s.arena ++ [nd]) i).is_goal = false
    by_cases hil : i < s.arena.length
    · rw [nodeAt_append_lt _ _ _ hil]
      exact h2 i hil
    · have hieq : i = s.arena.length := by omega
      rw [hieq, nodeAt_append_self]
      exact hndgoal
  · intro i hi
    have hi2 : i < (s.arena ++ [nd]).length := hi
    rw [List.length_append, List.length_singleton] at hi2
    show (nodeAt (s.arena ++ [nd]) i).g_val = (nodeAt (s.arena ++ [nd]) i).timestep
    by_cases hil : i < s.arena.length
    · rw [nodeAt_append_lt _ _ _ hil]
      exact h3 i hil
    · have hieq : i = s.arena.length := by omega
      rw [hieq, nodeAt_append_self]
      exact hndg
  · intro i hi
    have hi2 : i < (s.arena ++ [nd]).length := hi
    rw [List.length_append, List.length_singleton] at hi2
    show ∀ q : Path, pathAdj env q →
      q.head? = some (nodeAt (s.arena ++ [nd]) i).location →
      q.getLast? = some env.goal_location →
      (nodeAt (s.arena ++ [nd]) i).getFVal ≤
        max ((nodeAt (s.arena ++ [nd]) i).timestep + (q.length - 1))
          env.holding_time
    by_cases hil : i < s.arena.length
    · rw [nodeAt_append_lt _ _ _ hil]
      exact h4 i hil
    · have hieq : i = s.arena.length := by omega
      rw [hieq, nodeAt_append_self]
      exact hndf
  · intro i hi
    have hi2 : i ∈ s.open_list := hi
    show i < (s.arena ++ [nd]).length
    rw [List.length_append, List.length_singleton]
    have := h5 i hi2
    omega
  · intro i hi
    have hi2 : i < (s.arena ++ [nd]).length := hi
    rw [List.length_append, List.length_singleton] at hi2
    show (nodeAt (s.arena ++ [nd]) i).in_openlist = true ↔ i ∈ s.open_list
    by_cases hil : i < s.arena.length
    · rw [nodeAt_append_lt _ _ _ hil]
      exact h7 i hil
    · have hieq : i = s.arena.length := by omega
      rw [hieq, nodeAt_append_self]
      constructor
      · intro habs
        rw [hndflag] at habs
        exact Bool.noConfusion habs
      · intro hmem
        exact absurd (h5 _ hmem) (lt_irrefl _)
  · intro i hi
    have hi2 : i ∈ s.open_list := hi
    show s.min_f_val ≤ max L (nodeAt (s.arena ++ [nd]) i).getFVal
    rw [nodeAt_append_lt _ _ _ (h5 i hi2)]
    exact h8 i hi2
  · intro i hi
    have hi2 : i ∈ s.focal := hi
    show ((nodeAt (s.arena ++ [nd]) i).g_val : ℚ) ≤ w * s.min_f_val
    rw [nodeAt_append_lt _ _ _ (h5 i (h6 i hi2))]
    exact h9 i hi2

/-- Replacing the hash-table duplicate at `j` (same key, no larger timestep)
    by a copy of the mode-B child preserves the mode-B invariant. -/
theorem copyReplace_invB (env : SIPPEnv) (w : ℚ) (L : Nat) (iv : SInterval)
    (c nl j : Nat) (s : StateB)
    (hc : c < s.arena.length)
    (hadj : nl = (nodeAt s.arena c).location ∨
            nl ∈ env.getNeighbors (nodeAt s.arena c).location)
    (hinv : InvStateB env w L s)
    (hjlen : j < s.arena.length)
    (hkloc : (nodeAt s.arena j).location = (mkChildB env iv c nl s.arena).location)
    (hkgoal : (nodeAt s.arena j).is_goal = (mkChildB env iv c nl s.arena).is_goal)
    (htlt : (nodeAt s.arena c).timestep < (mkChildB env iv c nl s.arena).timestep)
    (htsle : (mkChildB env iv c nl s.arena).timestep ≤ (nodeAt s.arena j).timestep)
    (hndF : ∀ q : Path, pathAdj env q →
       q.head? = some (mkChildB env iv c nl s.arena).location →
       q.getLast? = some env.goal_location →
       (mkChildB env iv c nl s.arena).getFVal ≤
         max ((mkChildB env iv c nl s.arena).timestep + (q.length - 1))
           env.holding_time)
    (hndLB : s.min_f_val ≤ max L (mkChildB env iv c nl s.arena).getFVal)
    (hjc : j ≠ c) :
    InvStateB env w L { s with arena := (s.arena.set j
      (SIPPNode.copyFrom (nodeAt s.arena j) (mkChildB env iv c nl s.arena))) } ∧
    nodeAt (s.arena.set j
      (SIPPNode.copyFrom (nodeAt s.arena j) (mkChildB env iv c nl s.arena))) c =
      nodeAt s.arena c := by
  obtain ⟨h1, h2, h3, h4, h5, h6, h7, h8, h9⟩ := hinv
  obtain ⟨hpar, hgoal, hloc, hts, hgv, hfv2⟩ := mkChildB_fields2 env iv c nl s.arena
  have hcset : nodeAt (s.arena.set j
      (SIPPNode.copyFrom (nodeAt s.arena j) (mkChildB env iv c nl s.arena))) c =
      nodeAt s.arena c :=
    nodeAt_set_ne _ _ _ _ (fun h => hjc h.symm)
  refine ⟨⟨?_, ?_, ?_, ?_, ?_, h6, ?_, ?_, ?_⟩, hcset⟩
  · show ChainInv env (s.arena.set j
      (SIPPNode.copyFrom (nodeAt s.arena j) (mkChildB env iv c nl s.arena)))
    apply ChainInv_set env s.arena j
      (SIPPNode.copyFrom (nodeAt s.arena j) (mkChildB env iv c nl s.arena))
      h1 hjlen hkloc.symm hkgoal.symm htsle
    constructor
    · intro hpn
      have hpn2 : (mkChildB env iv c nl s.arena).parent = none := hpn
      rw [hpar] at hpn2
      exact Option.noConfusion hpn2
    · intro p hp
      have hp2 : (mkChildB env iv c nl s.arena).parent = some p := hp
      rw [hpar] at hp2
      have hpc : p = c := (Option.some.inj hp2).symm
      rw [hpc]
      refine ⟨?_, ?_, ?_, ?_⟩
      · rw [List.length_set]
        exact hc
      · rw [hcset]
        exact h2 c hc
      · intro habs
        have habs2 : (mkChildB env iv c nl s.arena).is_goal = true := habs
        rw [hgoal] at habs2
        exact Bool.noConfusion habs2
      · intro _
        rw [hcset]
        refine ⟨htlt, ?_⟩
        rw [show (SIPPNode.copyFrom (nodeAt s.arena j)
          (mkChildB env iv c nl s.arena)).location = nl from hloc]
        exact hadj
  · intro i hi
    have hi2 : i < (s.arena.set j _).length := hi
    rw [List.length_set] at hi2
    by_cases hij : i = j
    · subst hij
      show (nodeAt (s.arena.set i
        (SIPPNode.copyFrom (nodeAt s.arena i) (mkChildB env iv c nl s.arena))) i).is_goal = false
      rw [nodeAt_set_self _ _ _ hi2]
      exact hgoal
    · show (nodeAt (s.arena.set j
        (SIPPNode.copyFrom (nodeAt s.arena j) (mkChildB env iv c nl s.arena))) i).is_goal = false
      rw [nodeAt_set_ne _ _ _ _ hij]
      exact h2 i hi2
  · intro i hi
    have hi2 : i < (s.arena.set j _).length := hi
    rw [List.length_set] at hi2
    by_cases hij : i = j
    · subst hij
      show (nodeAt (s.arena.set i
        (SIPPNode.copyFrom (nodeAt s.arena i) (mkChildB env iv c nl s.arena))) i).g_val =
        (nodeAt (s.arena.set i
        (SIPPNode.copyFrom (nodeAt s.arena i) (mkChildB env iv c nl s.arena))) i).timestep
      rw [nodeAt_set_self _ _ _ hi2]
      exact hgv
    · show (nodeAt (s.arena.set j
        (SIPPNode.copyFrom (nodeAt s.arena j) (mkChildB env iv c nl s.arena))) i).g_val =
        (nodeAt (s.arena.set j
        (SIPPNode.copyFrom (nodeAt s.arena j) (mkChildB env iv c nl s.arena))) i).timestep
      rw [nodeAt_set_ne _ _ _ _ hij]
      exact h3 i hi2
  · intro i hi
    have hi2 : i < (s.arena.set j _).length := hi
    rw [List.length_set] at hi2
    by_cases hij : i = j
    · subst hij
      show ∀ q : Path, pathAdj env q →
        q.head? = some (nodeAt (s.arena.set i
          (SIPPNode.copyFrom (nodeAt s.arena i)
            (mkChildB env iv c nl s.arena))) i).location →
        q.getLast? = some env.goal_location →
        (nodeAt (s.arena.set i
          (SIPPNode.copyFrom (nodeAt s.arena i)
            (mkChildB env iv c nl s.arena))) i).getFVal ≤
          max ((nodeAt (s.arena.set i
            (SIPPNode.copyFrom (nodeAt s.arena i)
              (mkChildB env iv c nl s.arena))) i).timestep + (q.length - 1))
            env.holding_time
      rw [nodeAt_set_self _ _ _ hi2]
      exact hndF
    · show ∀ q : Path, pathAdj env q →
        q.head? = some (nodeAt (s.arena.set j
          (SIPPNode.copyFrom (nodeAt s.arena j)
            (mkChildB env iv c nl s.arena))) i).location →
        q.getLast? = some env.goal_location →
        (nodeAt (s.arena.set j
          (SIPPNode.copyFrom (nodeAt s.arena j)
            (mkChildB env iv c nl s.arena))) i).getFVal ≤
          max ((nodeAt (s.arena.set j
            (SIPPNode.copyFrom (nodeAt s.arena j)
              (mkChildB env iv c nl s.arena))) i).timestep + (q.length - 1))
            env.holding_time
      rw [nodeAt_set_ne _ _ _ _ hij]
      exact h4 i hi2
  · intro i hi
    have hi2 : i ∈ s.open_list := hi
    show i < (s.arena.set j _).length
    rw [List.length_set]
    exact h5 i hi2
  · intro i hi
    have hi2 : i < (s.arena.set j _).length := hi
    rw [List.length_set] at hi2
    by_cases hij : i = j
    · subst hij
      show (nodeAt (s.arena.set i
        (SIPPNode.copyFrom (nodeAt s.arena i) (mkChildB env iv c nl s.arena))) i).in_openlist
        = true ↔ i ∈ s.open_list
      rw [nodeAt_set_self _ _ _ hi2]
      show (nodeAt s.arena i).in_openlist = true ↔ i ∈ s.open_list
      exact h7 i hi2
    · show (nodeAt (s.arena.set j
        (SIPPNode.copyFrom (nodeAt s.arena j) (mkChildB env iv c nl s.arena))) i).in_openlist
        = true ↔ i ∈ s.open_list
      rw [nodeAt_set_ne _ _ _ _ hij]
      exact h7 i hi2
  · intro i hi
    have hi2 : i ∈ s.open_list := hi
    by_cases hij : i = j
    · subst hij
      show s.min_f_val ≤ max L (nodeAt (s.arena.set i
        (SIPPNode.copyFrom (nodeAt s.arena i) (mkChildB env iv c nl s.arena))) i).getFVal
      rw [nodeAt_set_self _ _ _ hjlen]
      exact hndLB
    · show s.min_f_val ≤ max L (nodeAt (s.arena.set j
        (SIPPNode.copyFrom (nodeAt s.arena j) (mkChildB env iv c nl s.arena))) i).getFVal
      rw [nodeAt_set_ne _ _ _ _ hij]
      exact h8 i hi2
  · intro i hi
    have hi2 : i ∈ s.focal := hi
    by_cases hij : i = j
    · subst hij
      show ((nodeAt (s.arena.set i
        (SIPPNode.copyFrom (nodeAt s.arena i) (mkChildB env iv c nl s.arena))) i).g_val : ℚ)
        ≤ w * s.min_f_val
      rw [nodeAt_set_self _ _ _ hjlen]
      refine le_trans ?_ (h9 i hi2)
      have hgle : (mkChildB env iv c nl s.arena).g_val ≤ (nodeAt s.arena i).g_val := by
        rw [hgv, h3 i hjlen]
        exact htsle
      exact_mod_cast hgle
    · show ((nodeAt (s.arena.set j
        (SIPPNode.copyFrom (nodeAt s.arena j) (mkChildB env iv c nl s.arena))) i).g_val : ℚ)
        ≤ w * s.min_f_val
      rw [nodeAt_set_ne _ _ _ _ hij]
      exact h9 i hi2

/-- `SIPP::generateChild` preserves the mode-B invariant whenever the parent
    `c` is a valid entry whose `f` keeps `min_f_val` below `max L f` and the
    candidate cell is the parent's cell or one of its neighbors; the arena
    only grows, `min_f_val` is untouched and the parent entry is unchanged. -/
theorem generateChild_invB (env : SIPPEnv) (w : ℚ) (L : Nat) (iv : SInterval)
    (c nl : Nat) (s : StateB)
    (hadm : ∀ a (q : Path), pathAdj env q → q.head? = some a →
       q.getLast? = some env.goal_location →
       env.my_heuristic a ≤ q.length - 1)
    (hc : c < s.arena.length)
    (hadj : nl = (nodeAt s.arena c).location ∨
            nl ∈ env.getNeighbors (nodeAt s.arena c).location)
    (hcur : s.min_f_val ≤ max L (nodeAt s.arena c).getFVal)
    (hinv : InvStateB env w L s) :
    InvStateB env w L (generateChild env w iv c nl s) ∧
    s.arena.length ≤ (generateChild env w iv c nl s).arena.length ∧
    (generateChild env w iv c nl s).min_f_val = s.min_f_val ∧
    nodeAt (generateChild env w iv c nl s).arena c = nodeAt s.arena c := by
  obtain ⟨hchain, hng, hgt, hf, hob, hfo, hflag, hlb, hfg⟩ := hinv
  obtain ⟨hpar, hgoal, hloc, hts, hgv, hfv2⟩ := mkChildB_fields2 env iv c nl s.arena
  have htlt : (nodeAt s.arena c).timestep <
      (mkChildB env iv c nl s.arena).timestep := by
    rw [hts]
    omega
  have hfge : (nodeAt s.arena c).getFVal ≤
      (mkChildB env iv c nl s.arena).getFVal := by
    rw [hfv2]
    exact Nat.le_max_right _ _
  have hndLB : s.min_f_val ≤ max L (mkChildB env iv c nl s.arena).getFVal := by
    omega
  have hndF : ∀ q : Path, pathAdj env q →
      q.head? = some (mkChildB env iv c nl s.arena).location →
      q.getLast? = some env.goal_location →
      (mkChildB env iv c nl s.arena).getFVal ≤
        max ((mkChildB env iv c nl s.arena).timestep + (q.length - 1))
          env.holding_time := by
    intro q hq hqh hql
    rw [hfv2]
    have hqh2 : q.head? = some nl := by
      rw [← hloc]
      exact hqh
    have h1 : env.my_heuristic nl ≤ q.length - 1 := hadm nl q hq hqh2 hql
    cases q with
    | nil => exact Option.noConfusion hqh2
    | cons b rest =>
        have hb : b = nl := Option.some.inj hqh2
        have hext : pathAdj env ((nodeAt s.arena c).location :: b :: rest) := by
          refine ⟨?_, hq⟩
          rw [hb]
          exact hadj
        have hextl : ((nodeAt s.arena c).location :: b :: rest).getLast? =
            some env.goal_location := by
          rw [List.getLast?_cons_cons]
          exact hql
        have h2 := hf c hc ((nodeAt s.arena c).location :: b :: rest) hext rfl
          hextl
        simp only [List.length_cons] at h1 h2 ⊢
        omega
  by_cases hmax : env.length_max < (mkChildB env iv c nl s.arena).g_val +
      (mkChildB env iv c nl s.arena).h_val
  · have heq : generateChild env w iv c nl s = s := by
      simp only [generateChild]
      rw [if_pos hmax]
    rw [heq]
    exact ⟨⟨hchain, hng, hgt, hf, hob, hfo, hflag, hlb, hfg⟩, le_refl _, rfl, rfl⟩
  · cases hk : findKey s.arena (mkChildB env iv c nl s.arena) with
    | none =>
        have heq : generateChild env w iv c nl s =
            pushNode w s.arena.length
              { s with arena := s.arena ++ [mkChildB env iv c nl s.arena] } := by
          simp only [generateChild, hk]
          rw [if_neg hmax]
        have hndinv : nodeInv env (s.arena ++ [mkChildB env iv c nl s.arena])
            (mkChildB env iv c nl s.arena) := by
          constructor
          · intro hpn
            rw [hpar] at hpn
            exact Option.noConfusion hpn
          · intro p hp
            rw [hpar] at hp
            have hpc : p = c := (Option.some.inj hp).symm
            rw [hpc]
            refine ⟨?_, ?_, ?_, ?_⟩
            · rw [List.length_append, List.length_singleton]
              omega
            · rw [nodeAt_append_lt _ _ _ hc]
              exact hng c hc
            · intro habs
              rw [hgoal] at habs
              exact Bool.noConfusion habs
            · intro _
              rw [nodeAt_append_lt _ _ _ hc]
              refine ⟨htlt, ?_⟩
              rw [hloc]
              exact hadj
        have hinv1 := arenaAppend_invB env w L s (mkChildB env iv c nl s.arena)
          ⟨hchain, hng, hgt, hf, hob, hfo, hflag, hlb, hfg⟩ hndinv hgoal hgv hndF rfl
        have hj1 : s.arena.length <
            ({ s with arena := s.arena ++ [mkChildB env iv c nl s.arena] }
              : StateB).arena.length := by
          show s.arena.length < (s.arena ++ [mkChildB env iv c nl s.arena]).length
          rw [List.length_append, List.length_singleton]
          omega
        have hLB1 : ({ s with arena := s.arena ++ [mkChildB env iv c nl s.arena] }
              : StateB).min_f_val ≤ max L
            (nodeAt ({ s with arena := s.arena ++ [mkChildB env iv c nl s.arena] }
              : StateB).arena s.arena.length).getFVal := by
          show s.min_f_val ≤ max L
            (nodeAt (s.arena ++ [mkChildB env iv c nl s.arena]) s.arena.length).getFVal
          rw [nodeAt_append_self]
          exact hndLB
        obtain ⟨g1, g2, g3, g4⟩ := pushNode_invB env w L s.arena.length
          { s with arena := s.arena ++ [mkChildB env iv c nl s.arena] }
          hj1 hLB1 hinv1
        rw [heq]
        refine ⟨g1, ?_, ?_, ?_⟩
        · rw [g2]
          show s.arena.length ≤ (s.arena ++ [mkChildB env iv c nl s.arena]).length
          rw [List.length_append, List.length_singleton]
          omega
        · rw [g3]
        · rw [g4 c (by omega)]
          exact nodeAt_append_lt _ _ _ hc
    | some j =>
        obtain ⟨hjlen, hjkey⟩ := findKey_some _ _ _ hk
        obtain ⟨hkloc, hklow, hkgoal⟩ := (sameKey_iff _ _).mp hjkey
        by_cases hrep : replacesKey (mkChildB env iv c nl s.arena) (nodeAt s.arena j)
        · have hjc : j ≠ c := by
            intro hjceq
            rw [hjceq] at hrep
            unfold replacesKey at hrep
            rcases hrep with h | ⟨h, _⟩ <;> omega
          have htsle : (mkChildB env iv c nl s.arena).timestep ≤
              (nodeAt s.arena j).timestep := by
            unfold replacesKey at hrep
            rcases hrep with h | ⟨h, _⟩ <;> omega
          obtain ⟨hinv2, hcset⟩ := copyReplace_invB env w L iv c nl j s hc hadj
            ⟨hchain, hng, hgt, hf, hob, hfo, hflag, hlb, hfg⟩
            hjlen hkloc hkgoal htlt htsle hndF hndLB hjc
          by_cases hop : (nodeAt s.arena j).in_openlist = false
          · have heq : generateChild env w iv c nl s =
                pushNode w j { s with arena := (s.arena.set j
                  (SIPPNode.copyFrom (nodeAt s.arena j)
                    (mkChildB env iv c nl s.arena))) } := by
              simp only [generateChild, hk]
              rw [if_neg hmax, if_pos hrep, if_pos hop]
            have hj1 : j < ({ s with arena := (s.arena.set j
                (SIPPNode.copyFrom (nodeAt s.arena j)
                  (mkChildB env iv c nl s.arena))) } : StateB).arena.length := by
              show j < (s.arena.set j _).length
              rw [List.length_set]
              exact hjlen
            have hLB1 : ({ s with arena := (s.arena.set j
                  (SIPPNode.copyFrom (nodeAt s.arena j)
                    (mkChildB env iv c nl s.arena))) } : StateB).min_f_val ≤
                max L (nodeAt ({ s with arena := (s.arena.set j
                  (SIPPNode.copyFrom (nodeAt s.arena j)
                    (mkChildB env iv c nl s.arena))) } : StateB).arena j).getFVal := by
              show s.min_f_val ≤ max L (nodeAt (s.arena.set j
                (SIPPNode.copyFrom (nodeAt s.arena j)
                  (mkChildB env iv c nl s.arena))) j).getFVal
              rw [nodeAt_set_self _ _ _ hjlen]
              exact hndLB
            obtain ⟨g1, g2, g3, g4⟩ := pushNode_invB env w L j
              { s with arena := (s.arena.set j
                (SIPPNode.copyFrom (nodeAt s.arena j)
                  (mkChildB env iv c nl s.arena))) } hj1 hLB1 hinv2
            rw [heq]
            refine ⟨g1, ?_, ?_, ?_⟩
            · rw [g2]
              show s.arena.length ≤ (s.arena.set j _).length
              rw [List.length_set]
            · rw [g3]
            · rw [g4 c (Ne.symm hjc)]
              exact hcset
          · have hopT : (nodeAt s.arena j).in_openlist = true := by
              revert hop
              cases (nodeAt s.arena j).in_openlist <;> simp
            by_cases hq : leMulQ w (mkChildB env iv c nl s.arena).getFVal
                  s.min_f_val = true ∧
                ¬ (leMulQ w (nodeAt s.arena j).getFVal s.min_f_val = true)
            · have heq : generateChild env w iv c nl s =
                  { { s with arena := (s.arena.set j
                      (SIPPNode.copyFrom (nodeAt s.arena j)
                        (mkChildB env iv c nl s.arena))) } with
                    focal := s.focal ++ [j] } := by
                simp only [generateChild, hk]
                rw [if_neg hmax, if_pos hrep, if_neg hop, if_pos hq]
              have hjo : j ∈ ({ s with arena := (s.arena.set j
                  (SIPPNode.copyFrom (nodeAt s.arena j)
                    (mkChildB env iv c nl s.arena))) } : StateB).open_list :=
                (hflag j hjlen).mp hopT
              have hgq : ((nodeAt ({ s with arena := (s.arena.set j
                    (SIPPNode.copyFrom (nodeAt s.arena j)
                      (mkChildB env iv c nl s.arena))) } : StateB).arena j).g_val : ℚ) ≤
                  w * ({ s with arena := (s.arena.set j
                    (SIPPNode.copyFrom (nodeAt s.arena j)
                      (mkChildB env iv c nl s.arena))) } : StateB).min_f_val := by
                show ((nodeAt (s.arena.set j
                  (SIPPNode.copyFrom (nodeAt s.arena j)
                    (mkChildB env iv c nl s.arena))) j).g_val : ℚ) ≤ w * s.min_f_val
                rw [nodeAt_set_self _ _ _ hjlen]
                have hle := (leMulQ_iff w _ _).mp hq.1
                refine le_trans ?_ hle
                have hgle : (SIPPNode.copyFrom (nodeAt s.arena j)
                    (mkChildB env iv c nl s.arena)).g_val ≤
                    (mkChildB env iv c nl s.arena).getFVal := Nat.le_add_right _ _
                exact_mod_cast hgle
              have hinv3 := focalAppend_invB env w L j
                { s with arena := (s.arena.set j
                  (SIPPNode.copyFrom (nodeAt s.arena j)
                    (mkChildB env iv c nl s.arena))) } hinv2 hjo hgq
              rw [heq]
              refine ⟨hinv3, ?_, rfl, ?_⟩
              · show s.arena.length ≤ (s.arena.set j _).length
                rw [List.length_set]
              · exact hcset
            · have heq : generateChild env w iv c nl s =
                  { s with arena := (s.arena.set j
                    (SIPPNode.copyFrom (nodeAt s.arena j)
                      (mkChildB env iv c nl s.arena))) } := by
                simp only [generateChild, hk]
                rw [if_neg hmax, if_pos hrep, if_neg hop, if_neg hq]
              rw [heq]
              refine ⟨hinv2, ?_, rfl, ?_⟩
              · show s.arena.length ≤ (s.arena.set j _).length
                rw [List.length_set]
              · exact hcset
        · have heq : generateChild env w iv c nl s = s := by
            simp only [generateChild, hk]
            rw [if_neg hmax, if_neg hrep]
          rw [heq]
          exact ⟨⟨hchain, hng, hgt, hf, hob, hfo, hflag, hlb, hfg⟩, le_refl _, rfl, rfl⟩

/-- `SIPP::updateFocalList` preserves the mode-B invariant: when it raises
    `min_f_val` to the OPEN head's `f`, that value is minimal over OPEN, and
    every migrated node satisfies the FOCAL bound at the new `min_f_val`. -/
theorem updateFocalList_invB (env : SIPPEnv) (w : ℚ) (L : Nat) (s : StateB)
    (hw0 : 0 ≤ w) (hinv : InvStateB env w L s) :
    InvStateB env w L (updateFocalList w s) := by
  obtain ⟨h1, h2, h3, h4, h5, h6, h7, h8, h9⟩ := hinv
  unfold updateFocalList
  cases hsel : selectMin openLt s.arena s.open_list with
  | none => exact ⟨h1, h2, h3, h4, h5, h6, h7, h8, h9⟩
  | some hd =>
      dsimp only
      by_cases hraise : s.min_f_val < (nodeAt s.arena hd).getFVal
      · rw [if_pos hraise]
        refine ⟨h1, h2, h3, h4, h5, ?_, h7, ?_, ?_⟩
        · intro i hi
          rcases List.mem_append.mp hi with hi | hi
          · exact h6 i hi
          · exact (List.mem_filter.mp hi).1
        · intro i hi
          have hmin := selectMin_openLt_min s.arena s.open_list hd hsel i hi
          show (nodeAt s.arena hd).getFVal ≤ max L (nodeAt s.arena i).getFVal
          omega
        · intro i hi
          rcases List.mem_append.mp hi with hi | hi
          · refine le_trans (h9 i hi) ?_
            exact mul_le_mul_of_nonneg_left
              (Nat.cast_le.mpr (le_of_lt hraise)) hw0
          · obtain ⟨hio, hcond⟩ := List.mem_filter.mp hi
            have hcond2 : leMulQ w (nodeAt s.arena i).getFVal
                (nodeAt s.arena hd).getFVal = true :=
              ((Bool.and_eq_true _ _).mp hcond).2
            have hle := (leMulQ_iff _ _ _).mp hcond2
            refine le_trans ?_ hle
            have hgle : (nodeAt s.arena i).g_val ≤ (nodeAt s.arena i).getFVal :=
              Nat.le_add_right _ _
            exact_mod_cast hgle
      · rw [if_neg hraise]
        exact ⟨h1, h2, h3, h4, h5, h6, h7, h8, h9⟩

/-- Popping a node from FOCAL and OPEN (lines 173–177) preserves the mode-B
    invariant; no field other than the open flag changes. -/
theorem popB_invB (env : SIPPEnv) (w : ℚ) (L : Nat) (c : Nat) (s : StateB)
    (hinv : InvStateB env w L s) :
    InvStateB env w L (popB c s) ∧
    (popB c s).min_f_val = s.min_f_val ∧
    (popB c s).arena.length = s.arena.length := by
  obtain ⟨h1, h2, h3, h4, h5, h6, h7, h8, h9⟩ := hinv
  have harena : (popB c s).arena =
      s.arena.set c ({ nodeAt s.arena c with in_openlist := false }) := rfl
  have hopn : (popB c s).open_list = s.open_list.filter (· ≠ c) := rfl
  have hfcl : (popB c s).focal = s.focal.filter (· ≠ c) := rfl
  have hfields := fun i => nodeAt_set_flag_fields s.arena c false i
  refine ⟨⟨?_, ?_, ?_, ?_, ?_, ?_, ?_, ?_, ?_⟩, rfl,
    by rw [harena, List.length_set]⟩
  · rw [harena]
    exact ChainInv_set_flag env s.arena c false h1
  · intro i hi
    rw [harena, List.length_set] at hi
    rw [harena, (hfields i).2.2.2.2.2.2.1]
    exact h2 i hi
  · intro i hi
    rw [harena, List.length_set] at hi
    rw [harena, (hfields i).2.2.1, (hfields i).2.1]
    exact h3 i hi
  · intro i hi
    rw [harena, List.length_set] at hi
    rw [harena, (hfields i).2.2.2.2.1, (hfields i).2.1, (hfields i).1]
    exact h4 i hi
  · intro i hi
    rw [hopn] at hi
    rw [harena, List.length_set]
    exact h5 i (List.mem_of_mem_filter hi)
  · intro i hi
    rw [hfcl] at hi
    rw [hopn]
    obtain ⟨hif, hic⟩ := List.mem_filter.mp hi
    exact List.mem_filter.mpr ⟨h6 i hif, hic⟩
  · intro i hi
    rw [harena, List.length_set] at hi
    rw [harena, hopn]
    by_cases hic : i = c
    · subst hic
      constructor
      · intro habs
        rw [nodeAt_set_self _ _ _ hi] at habs
        exact Bool.noConfusion habs
      · intro hmem
        have := (List.mem_filter.mp hmem).2
        simp at this
    · rw [nodeAt_set_ne _ _ _ _ hic, h7 i hi]
      constructor
      · intro hmem
        exact List.mem_filter.mpr ⟨hmem, by simp [hic]⟩
      · intro hmem
        exact List.mem_of_mem_filter hmem
  · intro i hi
    rw [hopn] at hi
    rw [harena]
    show s.min_f_val ≤ max L (nodeAt (s.arena.set c _) i).getFVal
    rw [(hfields i).2.2.2.2.1]
    exact h8 i (List.mem_of_mem_filter hi)
  · intro i hi
    rw [hfcl] at hi
    rw [harena]
    show ((nodeAt (s.arena.set c _) i).g_val : ℚ) ≤ w * s.min_f_val
    rw [(hfields i).2.2.1]
    exact h9 i (List.mem_of_mem_filter hi)

/-- The expansion phase of one mode-B iteration (lines 187–201) preserves
    the mode-B invariant; the arena only grows and `min_f_val` and the
    expanded entry stay unchanged. -/
theorem expandB_invB (env : SIPPEnv) (w : ℚ) (L : Nat) (c : Nat) (s1 : StateB)
    (hadm : ∀ a (q : Path), pathAdj env q → q.head? = some a →
       q.getLast? = some env.goal_location →
       env.my_heuristic a ≤ q.length - 1)
    (hc : c < s1.arena.length)
    (hcur : s1.min_f_val ≤ max L (nodeAt s1.arena c).getFVal)
    (hinv : InvStateB env w L s1) :
    InvStateB env w L (expandB env w c s1) := by
  unfold expandB
  have hmain := foldl_preserves_mem
    (fun sacc next_location =>
      (env.get_safe_intervals (nodeAt s1.arena c).location next_location
          ((nodeAt s1.arena c).timestep + 1)
          ((nodeAt s1.arena c).interval.high + 1)).foldl
        (fun sacc2 iv => generateChild env w iv c next_location sacc2)
        sacc)
    (fun st => InvStateB env w L st ∧ s1.arena.length ≤ st.arena.length ∧
       st.min_f_val = s1.min_f_val ∧ nodeAt st.arena c = nodeAt s1.arena c)
    (env.getNeighbors (nodeAt s1.arena c).location)
    (by
      intro b nl hmem hb
      refine foldl_preserves
        (fun sacc2 iv => generateChild env w iv c nl sacc2)
        (fun st => InvStateB env w L st ∧ s1.arena.length ≤ st.arena.length ∧
           st.min_f_val = s1.min_f_val ∧ nodeAt st.arena c = nodeAt s1.arena c)
        ?_ _ b hb
      intro b2 iv hb2
      obtain ⟨hb2inv, hb2len, hb2min, hb2keep⟩ := hb2
      obtain ⟨g1, g2, g3, g4⟩ := generateChild_invB env w L iv c nl b2 hadm
        (Nat.lt_of_lt_of_le hc hb2len)
        (by rw [hb2keep]; exact Or.inr hmem)
        (by rw [hb2keep, hb2min]; exact hcur) hb2inv
      exact ⟨g1, le_trans hb2len g2, by rw [g3, hb2min],
        by rw [g4, hb2keep]⟩)
    s1 ⟨hinv, le_refl _, rfl, rfl⟩
  obtain ⟨hminv, hmlen, hmmin, hmkeep⟩ := hmain
  cases hfsi : env.find_safe_interval (nodeAt s1.arena c).location
      (nodeAt s1.arena c).interval.high with
  | some iv =>
      simp only [hfsi]
      obtain ⟨g1, _, _, _⟩ := generateChild_invB env w L iv c
        (nodeAt s1.arena c).location _ hadm
        (Nat.lt_of_lt_of_le hc hmlen)
        (by rw [hmkeep]; exact Or.inl rfl)
        (by rw [hmkeep, hmmin]; exact hcur) hminv
      exact g1
  | none =>
      simp only [hfsi]
      exact hminv

/-- The mode-B loop either returns the empty path, or terminates at a pop
    from FOCAL at the goal location past the holding time, returning its
    parent-chain reconstruction; at the final state the popped timestep is
    sandwiched: `min_f_val ≤ max L timestep` and `timestep ≤ w * min_f_val`. -/
theorem findSubLoop_sandwich (env : SIPPEnv) (w : ℚ) (L : Nat)
    (hw : 1 ≤ w)
    (hadm : ∀ a (q : Path), pathAdj env q → q.head? = some a →
       q.getLast? = some env.goal_location →
       env.my_heuristic a ≤ q.length - 1) :
    ∀ (fuel : Nat) (s : StateB), InvStateB env w L s →
      (findSubLoop env w fuel s).1 = [] ∨
      ∃ c, c < (findSubLoop env w fuel s).2.arena.length ∧
        (findSubLoop env w fuel s).1 =
          updatePath (findSubLoop env w fuel s).2.arena
            (nodeAt (findSubLoop env w fuel s).2.arena c).timestep c ∧
        (nodeAt (findSubLoop env w fuel s).2.arena c).is_goal = false ∧
        ChainInv env (findSubLoop env w fuel s).2.arena ∧
        (nodeAt (findSubLoop env w fuel s).2.arena c).location =
          env.goal_location ∧
        env.holding_time ≤
          (nodeAt (findSubLoop env w fuel s).2.arena c).timestep ∧
        (findSubLoop env w fuel s).2.min_f_val ≤
          max L (nodeAt (findSubLoop env w fuel s).2.arena c).timestep ∧
        ((nodeAt (findSubLoop env w fuel s).2.arena c).timestep : ℚ) ≤
          w * (findSubLoop env w fuel s).2.min_f_val
  | 0, s, _ => Or.inl rfl
  | fuel + 1, s, hinv => by
      have hw0 : (0 : ℚ) ≤ w := le_trans zero_le_one hw
      by_cases hemp : s.open_list.isEmpty = true
      · left
        rw [findSubLoop_succ, if_pos hemp]
      · have hinv0 := updateFocalList_invB env w L s hw0 hinv
        cases hsel : selectMin focalLt (updateFocalList w s).arena
            (updateFocalList w s).focal with
        | none =>
            left
            rw [findSubLoop_succ, if_neg hemp]
            simp only [hsel]
        | some c =>
            obtain ⟨h1, h2, h3, h4, h5, h6, h7, h8, h9⟩ := hinv0
            have hcf : c ∈ (updateFocalList w s).focal :=
              selectMin_mem _ _ _ _ hsel
            have hco : c ∈ (updateFocalList w s).open_list := h6 c hcf
            have hc : c < (updateFocalList w s).arena.length := h5 c hco
            obtain ⟨hinv1, hmin1, hlen1⟩ :=
              popB_invB env w L c (updateFocalList w s)
                ⟨h1, h2, h3, h4, h5, h6, h7, h8, h9⟩
            have hfld := popB_node_fields c (updateFocalList w s)
            have hLBc := h8 c hco
            have hGc := h9 c hcf
            have hF4 := h4 c hc
            have hgtc := h3 c hc
            have hngc := h2 c hc
            by_cases hcond :
                (nodeAt (popB c (updateFocalList w s)).arena c).location =
                  env.goal_location ∧
                (nodeAt (popB c (updateFocalList w s)).arena c).wait_at_goal =
                  false ∧
                env.holding_time ≤
                  (nodeAt (popB c (updateFocalList w s)).arena c).timestep
            · have hres : findSubLoop env w (fuel + 1) s =
                  (updatePath (popB c (updateFocalList w s)).arena
                    (nodeAt (popB c (updateFocalList w s)).arena c).timestep c,
                   popB c (updateFocalList w s)) := by
                rw [findSubLoop_succ, if_neg hemp]
                simp only [hsel]
                rw [if_pos hcond]
              right
              rw [hres]
              have hloc0 : (nodeAt (updateFocalList w s).arena c).location =
                  env.goal_location := by
                rw [← hfld.1]
                exact hcond.1
              have hFc : (nodeAt (updateFocalList w s).arena c).getFVal ≤
                  max ((nodeAt (updateFocalList w s).arena c).timestep +
                    (([env.goal_location] : Path).length - 1))
                    env.holding_time :=
                hF4 [env.goal_location] trivial (by rw [hloc0]; rfl) rfl
              simp only [List.length_singleton] at hFc
              have hhold0 : env.holding_time ≤
                  (nodeAt (updateFocalList w s).arena c).timestep := by
                rw [← hfld.2.1]
                exact hcond.2.2
              refine ⟨c, ?_, rfl, ?_, hinv1.1, hcond.1, hcond.2.2, ?_, ?_⟩
              · show c < (popB c (updateFocalList w s)).arena.length
                rw [hlen1]
                exact hc
              · show (nodeAt (popB c (updateFocalList w s)).arena c).is_goal =
                  false
                rw [hfld.2.2.2.1]
                exact hngc
              · show (popB c (updateFocalList w s)).min_f_val ≤
                  max L (nodeAt (popB c (updateFocalList w s)).arena c).timestep
                rw [hmin1, hfld.2.1]
                omega
              · show ((nodeAt (popB c (updateFocalList w s)).arena c).timestep
                  : ℚ) ≤ w * (popB c (updateFocalList w s)).min_f_val
                rw [hfld.2.1, hmin1]
                rw [hgtc] at hGc
                exact hGc
            · have hres : findSubLoop env w (fuel + 1) s =
                  findSubLoop env w fuel
                    (expandB env w c (popB c (updateFocalList w s))) := by
                rw [findSubLoop_succ, if_neg hemp]
                simp only [hsel]
                rw [if_neg hcond]
              have hc1 : c < (popB c (updateFocalList w s)).arena.length := by
                rw [hlen1]
                exact hc
              have hcur1 : (popB c (updateFocalList w s)).min_f_val ≤
                  max L (nodeAt (popB c (updateFocalList w s)).arena c).getFVal := by
                rw [hmin1]
                have hfeq : (nodeAt (popB c (updateFocalList w s)).arena c).getFVal =
                    (nodeAt (updateFocalList w s).arena c).getFVal := by
                  unfold SIPPNode.getFVal
                  rw [hfld.2.2.2.2.2.1, hfld.2.2.2.2.2.2]
                rw [hfeq]
                exact hLBc
              have hinv2 := expandB_invB env w L c
                (popB c (updateFocalList w s)) hadm hc1 hcur1 hinv1
              rw [hres]
              exact findSubLoop_sandwich env w L hw hadm fuel _ hinv2

/-- C2 counterexample.  In the mode-B run on `envC2` (`w = 1`,
    `lowerbound = 0`, exact-distance heuristic), the search returns the
    non-empty path `[0,2,2,2,2,2,2,2,2,2,2,2,1]` of cost `12` together with
    `min_f_val = 12`, although the instance admits the constrained path
    `[0,2,2,2,2,2,2,2,2,1]` of cost `9`: an equal-or-adjacent path from the
    start that settles at the goal at timestep `9 ≥ holding_time` (the only
    hard constraint is the goal cell at time `8`; the other agent's presence
    on `[9,12)` is soft).  The returned `min_f_val` therefore exceeds the
    optimal constrained cost, refuting the claim's clause that it is a valid
    lower bound on the optimal cost (the sandwich itself holds in this run:
    `12 ≤ 12 ≤ 12`). -/
theorem modeB_min_f_not_lower_bound_counterexample :
    (findSuboptimalPath envC2 0 1 20).1.1 =
      [0, 2, 2, 2, 2, 2, 2, 2, 2, 2, 2, 2, 1] ∧
    (findSuboptimalPath envC2 0 1 20).1.2 = 12 ∧
    pathAdj envC2 [0, 2, 2, 2, 2, 2, 2, 2, 2, 1] ∧
    ([0, 2, 2, 2, 2, 2, 2, 2, 2, 1] : Path).head? =
      some envC2.start_location ∧
    ([0, 2, 2, 2, 2, 2, 2, 2, 2, 1] : Path).getLast? =
      some envC2.goal_location ∧
    ([0, 2, 2, 2, 2, 2, 2, 2, 2, 1] : Path).length - 1 = 9 ∧
    envC2.holding_time ≤ 9 ∧
    9 < (findSuboptimalPath envC2 0 1 20).1.2 := by decide

/-- C2 (amended): for `SIPP::findSuboptimalPath` with suboptimality factor
    `w ≥ 1`, an admissible heuristic (`my_heuristic` never exceeds the
    number of steps of any equal-or-adjacent path to the goal), and a
    `lowerbound` that does not exceed the returned path's cost (the instance
    at the returned path of the claim's hypothesis that `lowerbound` does
    not exceed the optimal constrained cost, since the returned path is
    itself a constrained path): whenever the returned path is non-empty, the
    returned `min_f_val` satisfies `min_f_val ≤ cost(path) ≤ w * min_f_val`,
    where the cost of a path is its length minus one.  The original claim's
    further clause — that `min_f_val` is a valid lower bound on the optimal
    constrained cost — is false and refuted separately. -/
theorem modeB_suboptimality_sandwich (env : SIPPEnv) (lowerbound : Nat)
    (w : ℚ) (fuel : Nat)
    (hw : 1 ≤ w)
    (hadm : ∀ a (q : Path), pathAdj env q → q.head? = some a →
       q.getLast? = some env.goal_location →
       env.my_heuristic a ≤ q.length - 1)
    (hne : (findSuboptimalPath env lowerbound w fuel).1.1 ≠ [])
    (hlb : lowerbound ≤
       (findSuboptimalPath env lowerbound w fuel).1.1.length - 1) :
    (findSuboptimalPath env lowerbound w fuel).1.2 ≤
      (findSuboptimalPath env lowerbound w fuel).1.1.length - 1 ∧
    (((findSuboptimalPath env lowerbound w fuel).1.1.length - 1 : Nat) : ℚ) ≤
      w * (findSuboptimalPath env lowerbound w fuel).1.2 := by
  have hw0 : (0 : ℚ) ≤ w := le_trans zero_le_one hw
  have main : ∀ s : StateB,
      InvStateB env w (max env.holding_time lowerbound) s →
      (findSubLoop env w fuel s).1 ≠ [] →
      lowerbound ≤ (findSubLoop env w fuel s).1.length - 1 →
      (findSubLoop env w fuel s).2.min_f_val ≤
        (findSubLoop env w fuel s).1.length - 1 ∧
      (((findSubLoop env w fuel s).1.length - 1 : Nat) : ℚ) ≤
        w * (findSubLoop env w fuel s).2.min_f_val := by
    intro s hinvS hneS hlbS
    rcases findSubLoop_sandwich env w (max env.holding_time lowerbound) hw
        hadm fuel s hinvS with
      hempty | ⟨c, hclen, hequ, hcg, hchain, hcloc, hchold, hcLB, hcUB⟩
    · exact absurd hempty hneS
    · obtain ⟨hplen, _, _, _⟩ := updatePath_spec env
        (findSubLoop env w fuel s).2.arena hchain
        (nodeAt (findSubLoop env w fuel s).2.arena c).timestep c hclen hcg
        (le_refl _)
      rw [← hequ] at hplen
      rw [hplen] at hlbS
      constructor
      · rw [hplen]
        omega
      · rw [hplen]
        have h11 : (nodeAt (findSubLoop env w fuel s).2.arena c).timestep + 1 - 1 =
            (nodeAt (findSubLoop env w fuel s).2.arena c).timestep := by omega
        rw [h11]
        exact hcUB
  by_cases hlow : 0 < (env.get_first_safe_interval env.start_location).low
  · exfalso
    apply hne
    show (findSuboptimalPath env lowerbound w fuel).1.1 = []
    simp only [findSuboptimalPath]
    rw [if_pos hlow]
  · have hfp : findSuboptimalPath env lowerbound w fuel =
        (((findSubLoop env w fuel
            ⟨[mkStart env (env.get_first_safe_interval env.start_location)],
              [0], [0],
              max env.holding_time
                (max (mkStart env
                  (env.get_first_safe_interval env.start_location)).getFVal
                  lowerbound), 0, 1, []⟩).1,
          (findSubLoop env w fuel
            ⟨[mkStart env (env.get_first_safe_interval env.start_location)],
              [0], [0],
              max env.holding_time
                (max (mkStart env
                  (env.get_first_safe_interval env.start_location)).getFVal
                  lowerbound), 0, 1, []⟩).2.min_f_val),
         (findSubLoop env w fuel
            ⟨[mkStart env (env.get_first_safe_interval env.start_location)],
              [0], [0],
              max env.holding_time
                (max (mkStart env
                  (env.get_first_safe_interval env.start_location)).getFVal
                  lowerbound), 0, 1, []⟩).2) := by
      simp only [findSuboptimalPath]
      rw [if_neg hlow]
    have hinv0 : InvStateB env w (max env.holding_time lowerbound)
        ⟨[mkStart env (env.get_first_safe_interval env.start_location)],
          [0], [0],
          max env.holding_time
            (max (mkStart env
              (env.get_first_safe_interval env.start_location)).getFVal
              lowerbound), 0, 1, []⟩ := by
      refine ⟨?_, ?_, ?_, ?_, ?_, ?_, ?_, ?_, ?_⟩
      · intro i hi
        have hi2 : i < 1 := by simpa using hi
        have hi0 : i = 0 := by omega
        subst hi0
        constructor
        · intro _
          exact ⟨rfl, rfl, rfl⟩
        · intro p hp
          exact Option.noConfusion hp
      · intro i hi
        have hi2 : i < 1 := by simpa using hi
        have hi0 : i = 0 := by omega
        subst hi0
        rfl
      · intro i hi
        have hi2 : i < 1 := by simpa using hi
        have hi0 : i = 0 := by omega
        subst hi0
        rfl
      · intro i hi
        have hi2 : i < 1 := by simpa using hi
        have hi0 : i = 0 := by omega
        subst hi0
        intro q hq hqh hql
        have hh := hadm env.start_location q hq hqh hql
        show 0 + max (env.my_heuristic env.start_location) env.holding_time ≤
          max (0 + (q.length - 1)) env.holding_time
        omega
      · intro i hi
        have hi0 : i = 0 := List.mem_singleton.mp hi
        subst hi0
        show 0 < 1
        omega
      · intro i hi
        exact hi
      · intro i hi
        have hi2 : i < 1 := by simpa using hi
        have hi0 : i = 0 := by omega
        subst hi0
        constructor
        · intro _
          exact List.mem_singleton_self 0
        · intro _
          rfl
      · intro i hi
        have hi0 : i = 0 := List.mem_singleton.mp hi
        subst hi0
        show max env.holding_time
            (max (mkStart env
              (env.get_first_safe_interval env.start_location)).getFVal
              lowerbound) ≤
          max (max env.holding_time lowerbound)
            (mkStart env (env.get_first_safe_interval env.start_location)).getFVal
        omega
      · intro i hi
        have hi0 : i = 0 := List.mem_singleton.mp hi
        subst hi0
        show ((0 : Nat) : ℚ) ≤ w *
          (max env.holding_time
            (max (mkStart env
              (env.get_first_safe_interval env.start_location)).getFVal
              lowerbound) : Nat)
        rw [Nat.cast_zero]
        exact mul_nonneg hw0 (Nat.cast_nonneg _)
    rw [hfp] at hne hlb ⊢
    exact main _ hinv0 hne hlb

theorem modeB_suboptimality_sandwich_witness :
    (findSuboptimalPath envFree 0 1 10).1.1 ≠ [] ∧
    ((findSuboptimalPath envFree 0 1 10).1.2 ≤
       (findSuboptimalPath envFree 0 1 10).1.1.length - 1 ∧
     (((findSuboptimalPath envFree 0 1 10).1.1.length - 1 : Nat) : ℚ) ≤
       1 * (findSuboptimalPath envFree 0 1 10).1.2) :=
  ⟨by decide,
   modeB_suboptimality_sandwich envFree 0 1 10 le_rfl
     (by
       intro a q hq hqh hql
       by_cases ha0 : a = 0
       · subst ha0
         show envFree.my_heuristic 0 ≤ q.length - 1
         cases q with
         | nil => exact Option.noConfusion hqh
         | cons b rest =>
             cases rest with
             | nil =>
                 have hb0 : b = 0 := Option.some.inj hqh
                 have hb1 : b = 1 := Option.some.inj hql
                 rw [hb0] at hb1
                 exact absurd hb1 (by decide)
             | cons c2 rest2 =>
                 show (1 : Nat) ≤ rest2.length + 1 + 1 - 1
                 omega
       · have hz : envFree.my_heuristic a = 0 := by
           simp [envFree, ha0]
         show envFree.my_heuristic a ≤ q.length - 1
         rw [hz]
         exact Nat.zero_le _)
     (by decide) (Nat.zero_le _)⟩

end SIPP
